import Mathlib

/-! # RasterMaster: `rasterizeTools.h`

A shallow embedding of the geometric helpers of the CUDA rasterizer
(`src/rasterizeTools.h`) and the properties proved about them.

The source computes on `float`.  Two readings of it are embedded.

* Exact arithmetic: scalars are rationals `ℚ` and no operation rounds.  The
  functions carrying the source's names are this reading, and a statement about
  them is a statement about exact arithmetic.  Division only ever occurs with a
  divisor that the statements assume to be non-zero; the variants ending in `?`
  make the division explicit as a guarded operation that has no result on a
  zero divisor.
* Binary32 arithmetic: the functions ending in `F32` repeat the same bodies with
  the rounding of every operation made explicit.  They are used to evaluate the
  source on concrete `float` inputs where rounding changes the outcome.
-/

namespace RasterMaster

/-! ## Data model -/

/-- Two scalars, as `glm::vec2`. -/
structure vec2 where
  x : ℚ
  y : ℚ
deriving DecidableEq

/-- Three scalars, as `glm::vec3`. -/
structure vec3 where
  x : ℚ
  y : ℚ
  z : ℚ
deriving DecidableEq

/-- Four scalars, as `glm::vec4`. -/
structure vec4 where
  x : ℚ
  y : ℚ
  z : ℚ
  w : ℚ
deriving DecidableEq

/-- Row-accessible 4x4 matrix, as `cudaMat4`: the fields are the four rows. -/
structure cudaMat4 where
  x : vec4
  y : vec4
  z : vec4
  w : vec4
deriving DecidableEq

/-- Column-accessible 4x4 matrix, as `glm::mat4`: `col0` is `v[0]`, and so on. -/
structure mat4 where
  col0 : vec4
  col1 : vec4
  col2 : vec4
  col3 : vec4
deriving DecidableEq

/-- The `triangle` struct: positions, light vectors, colours and normals. -/
structure triangle where
  p0 : vec4
  p1 : vec4
  p2 : vec4
  p0_w : vec4
  p1_w : vec4
  p2_w : vec4
  c0 : vec3
  c1 : vec3
  c2 : vec3
  n0 : vec4
  n1 : vec4
  n2 : vec4
deriving DecidableEq

/-! ## Operations -/

/-- Product of a `cudaMat4` and a `vec4`, as `multiplyMV`. -/
def multiplyMV (m : cudaMat4) (v : vec4) : vec4 :=
  let r : vec4 := ⟨1, 1, 1, 0⟩
  let r := { r with x := (m.x.x*v.x)+(m.x.y*v.y)+(m.x.z*v.z)+(m.x.w*v.w) }
  let r := { r with y := (m.y.x*v.x)+(m.y.y*v.y)+(m.y.z*v.z)+(m.y.w*v.w) }
  let r := { r with z := (m.z.x*v.x)+(m.z.y*v.y)+(m.z.z*v.z)+(m.z.w*v.w) }
  let r := { r with w := (m.w.x*v.x)+(m.w.y*v.y)+(m.w.z*v.z)+(m.w.w*v.w) }
  r

/-- Conversion of a `glm::mat4` to a `cudaMat4`, as `mat4GLMtoCUDA`. -/
def mat4GLMtoCUDA (v : mat4) : cudaMat4 :=
  { x := ⟨v.col0.x, v.col1.x, v.col2.x, v.col3.x⟩
    y := ⟨v.col0.y, v.col1.y, v.col2.y, v.col3.y⟩
    z := ⟨v.col0.z, v.col1.z, v.col2.z, v.col3.z⟩
    w := ⟨v.col0.w, v.col1.w, v.col2.w, v.col3.w⟩ }

/-- Axis aligned bounding box of a triangle, as `getAABBForTriangle`; the two
out-parameters `minpoint` and `maxpoint` are returned as a pair. -/
def getAABBForTriangle (tri : triangle) : vec3 × vec3 :=
  let minpoint : vec3 :=
    ⟨min (min tri.p0.x tri.p1.x) tri.p2.x,
     min (min tri.p0.y tri.p1.y) tri.p2.y,
     min (min tri.p0.z tri.p1.z) tri.p2.z⟩
  let maxpoint : vec3 :=
    ⟨max (max tri.p0.x tri.p1.x) tri.p2.x,
     max (max tri.p0.y tri.p1.y) tri.p2.y,
     max (max tri.p0.z tri.p1.z) tri.p2.z⟩
  (minpoint, maxpoint)

/-- Signed area of a triangle, as `calculateSignedArea`. -/
def calculateSignedArea (tri : triangle) : ℚ :=
  (1/2) * ((tri.p2.x - tri.p0.x)*(tri.p1.y - tri.p0.y)
    - (tri.p1.x - tri.p0.x)*(tri.p2.y - tri.p0.y))

/-- The local `baryTri` of `calculateBarycentricCoordinateValue`: only the three
positions are assigned, to `(a,0,1)`, `(b,0,1)`, `(c,0,1)`.  The remaining
fields are left unassigned by the source and never read; they are zero here. -/
def baryTri (a b c : vec2) : triangle :=
  { p0 := ⟨a.x, a.y, 0, 1⟩
    p1 := ⟨b.x, b.y, 0, 1⟩
    p2 := ⟨c.x, c.y, 0, 1⟩
    p0_w := ⟨0, 0, 0, 0⟩
    p1_w := ⟨0, 0, 0, 0⟩
    p2_w := ⟨0, 0, 0, 0⟩
    c0 := ⟨0, 0, 0⟩
    c1 := ⟨0, 0, 0⟩
    c2 := ⟨0, 0, 0⟩
    n0 := ⟨0, 0, 0, 0⟩
    n1 := ⟨0, 0, 0, 0⟩
    n2 := ⟨0, 0, 0, 0⟩ }

/-- One barycentric weight as a ratio of signed areas, as
`calculateBarycentricCoordinateValue`. -/
def calculateBarycentricCoordinateValue (a b c : vec2) (tri : triangle) : ℚ :=
  calculateSignedArea (baryTri a b c) / calculateSignedArea tri

/-- Barycentric coordinates `(alpha, beta, gamma)` of a point, as
`calculateBarycentricCoordinate`. -/
def calculateBarycentricCoordinate (tri : triangle) (point : vec2) : vec3 :=
  let beta := calculateBarycentricCoordinateValue
    ⟨tri.p0.x, tri.p0.y⟩ point ⟨tri.p2.x, tri.p2.y⟩ tri
  let gamma := calculateBarycentricCoordinateValue
    ⟨tri.p0.x, tri.p0.y⟩ ⟨tri.p1.x, tri.p1.y⟩ point tri
  let alpha := 1 - beta - gamma
  ⟨alpha, beta, gamma⟩

/-- Closed-interval test on the three weights, as `isBarycentricCoordInBounds`. -/
def isBarycentricCoordInBounds (barycentricCoord : vec3) : Bool :=
  decide (barycentricCoord.x ≥ 0) && decide (barycentricCoord.x ≤ 1) &&
  decide (barycentricCoord.y ≥ 0) && decide (barycentricCoord.y ≤ 1) &&
  decide (barycentricCoord.z ≥ 0) && decide (barycentricCoord.z ≤ 1)

/-- Depth at a barycentric coordinate, as `getZAtCoordinate`. -/
def getZAtCoordinate (barycentricCoord : vec3) (tri : triangle) : ℚ :=
  -(barycentricCoord.x*tri.p0.z + barycentricCoord.y*tri.p1.z
    + barycentricCoord.z*tri.p2.z)

/-! ## Test data -/

/-- A triangle with the given positions and all other attributes zero. -/
def mkTri (p0 p1 p2 : vec4) : triangle :=
  { p0 := p0, p1 := p1, p2 := p2
    p0_w := ⟨0, 0, 0, 0⟩, p1_w := ⟨0, 0, 0, 0⟩, p2_w := ⟨0, 0, 0, 0⟩
    c0 := ⟨0, 0, 0⟩, c1 := ⟨0, 0, 0⟩, c2 := ⟨0, 0, 0⟩
    n0 := ⟨0, 0, 0, 0⟩, n1 := ⟨0, 0, 0, 0⟩, n2 := ⟨0, 0, 0, 0⟩ }

/-- The triangle of the spec's scenario: `p0=(0,0)`, `p1=(1,0)`, `p2=(0,1)`,
each with `z=0`, `w=1`. -/
def unitTri : triangle :=
  mkTri ⟨0, 0, 0, 1⟩ ⟨1, 0, 0, 1⟩ ⟨0, 1, 0, 1⟩

/-- A triangle with mixed depths, `w` components and non-zero attributes:
positions `(1,1,5,2)`, `(4,2,-1,1)`, `(2,5,3,3)`. -/
def skewTri : triangle :=
  { p0 := ⟨1, 1, 5, 2⟩, p1 := ⟨4, 2, -1, 1⟩, p2 := ⟨2, 5, 3, 3⟩
    p0_w := ⟨1, 0, 0, 1⟩, p1_w := ⟨0, 1, 0, 1⟩, p2_w := ⟨0, 0, 1, 1⟩
    c0 := ⟨1, 0, 0⟩, c1 := ⟨0, 1, 0⟩, c2 := ⟨0, 0, 1⟩
    n0 := ⟨0, 0, 1, 0⟩, n1 := ⟨0, 0, 1, 0⟩, n2 := ⟨0, 0, 1, 0⟩ }

/-- The spec's triangle with every `z`, every `w` and every attribute changed;
only the `x,y` of the positions are those of `unitTri`. -/
def unitTriAltered : triangle :=
  { p0 := ⟨0, 0, 7, 2⟩, p1 := ⟨1, 0, -3, 5⟩, p2 := ⟨0, 1, 4, -1⟩
    p0_w := ⟨1, 2, 3, 4⟩, p1_w := ⟨5, 6, 7, 8⟩, p2_w := ⟨9, 10, 11, 12⟩
    c0 := ⟨1, 1, 1⟩, c1 := ⟨2, 2, 2⟩, c2 := ⟨3, 3, 3⟩
    n0 := ⟨1, 0, 0, 0⟩, n1 := ⟨0, 1, 0, 0⟩, n2 := ⟨0, 0, 1, 0⟩ }

/-- A triangle whose three positions coincide in `x,y` at `(2,3)`. -/
def pointTri : triangle :=
  mkTri ⟨2, 3, 0, 1⟩ ⟨2, 3, 1, 1⟩ ⟨2, 3, 2, 1⟩

/-- The `x,y` part of a position, as `glm::vec2(p.x, p.y)`. -/
def xy (p : vec4) : vec2 := ⟨p.x, p.y⟩

/-! ## Component access -/

/-- Component `i` of a `vec4`, as `operator[]` of `glm::vec4`: `0,1,2,3` are
`x,y,z,w`. -/
def vec4.get (v : vec4) (i : Fin 4) : ℚ :=
  match i.val with
  | 0 => v.x
  | 1 => v.y
  | 2 => v.z
  | _ => v.w

/-- Row `r` of a `cudaMat4`: `0,1,2,3` are the members `x,y,z,w`. -/
def cudaMat4.row (m : cudaMat4) (r : Fin 4) : vec4 :=
  match r.val with
  | 0 => m.x
  | 1 => m.y
  | 2 => m.z
  | _ => m.w

/-- Column `c` of a `glm::mat4`, as `v[c]`. -/
def mat4.col (v : mat4) (c : Fin 4) : vec4 :=
  match c.val with
  | 0 => v.col0
  | 1 => v.col1
  | 2 => v.col2
  | _ => v.col3

/-- The re-layout in the other direction: column `c`, row `r` of the result is
row `r`, column `c` of the argument.  The source has no such function; it is the
inverse re-layout against which `mat4GLMtoCUDA` is compared. -/
def inverseRelayout (m : cudaMat4) : mat4 :=
  { col0 := ⟨m.x.x, m.y.x, m.z.x, m.w.x⟩
    col1 := ⟨m.x.y, m.y.y, m.z.y, m.w.y⟩
    col2 := ⟨m.x.z, m.y.z, m.z.z, m.w.z⟩
    col3 := ⟨m.x.w, m.y.w, m.z.w, m.w.w⟩ }

/-- The identity as a `cudaMat4`: rows `(1,0,0,0)`, `(0,1,0,0)`, `(0,0,1,0)`,
`(0,0,0,1)`. -/
def identityMat : cudaMat4 :=
  { x := ⟨1, 0, 0, 0⟩, y := ⟨0, 1, 0, 0⟩, z := ⟨0, 0, 1, 0⟩, w := ⟨0, 0, 0, 1⟩ }

/-! ## Space conversion

The source keeps `clipToScreenTransform` and `screenToClipTransform` as
commented-out code.  Both update the three positions of the triangle in place,
vertex by vertex with the same assignments; here each block of assignments is a
function on one position and the transform applies the blocks in source order
to `p0`, `p1` and `p2`.  No assignment writes `w` or any other field. -/

/-- A triangle with `f` applied to each of its three positions. -/
def mapPositions (f : vec4 → vec4) (tri : triangle) : triangle :=
  { tri with p0 := f tri.p0, p1 := f tri.p1, p2 := f tri.p2 }

/-- First block of `clipToScreenTransform`: `x /= w; y /= w; z /= w`. -/
def perspectiveDivide (p : vec4) : vec4 :=
  { p with x := p.x / p.w, y := p.y / p.w, z := p.z / p.w }

/-- Second block of `clipToScreenTransform`: `v += 1; v /= 2` for `x,y,z`. -/
def rescaleToUnit (p : vec4) : vec4 :=
  { p with x := (p.x + 1) / 2, y := (p.y + 1) / 2, z := (p.z + 1) / 2 }

/-- Third block of `clipToScreenTransform`: `x *= resolution.x;
y *= resolution.y`. -/
def scaleByResolution (resolution : vec2) (p : vec4) : vec4 :=
  { p with x := p.x * resolution.x, y := p.y * resolution.y }

/-- Clip space to screen space, as the commented-out `clipToScreenTransform`. -/
def clipToScreenTransform (primitive : triangle) (resolution : vec2) : triangle :=
  mapPositions
    (fun p => scaleByResolution resolution (rescaleToUnit (perspectiveDivide p)))
    primitive

/-- First block of `screenToClipTransform`: `x /= resolution.x;
y /= resolution.y`. -/
def divideByResolution (resolution : vec2) (p : vec4) : vec4 :=
  { p with x := p.x / resolution.x, y := p.y / resolution.y }

/-- Second block of `screenToClipTransform`: `v *= 2; v -= 1` for `x,y,z`. -/
def rescaleToSigned (p : vec4) : vec4 :=
  { p with x := p.x * 2 - 1, y := p.y * 2 - 1, z := p.z * 2 - 1 }

/-- Third block of `screenToClipTransform`: `x *= w; y *= w; z *= w`. -/
def perspectiveMultiply (p : vec4) : vec4 :=
  { p with x := p.x * p.w, y := p.y * p.w, z := p.z * p.w }

/-- Screen space to clip space, as the commented-out `screenToClipTransform`. -/
def screenToClipTransform (primitive : triangle) (resolution : vec2) : triangle :=
  mapPositions
    (fun p => perspectiveMultiply (rescaleToSigned (divideByResolution resolution p)))
    primitive

/-! ## Guarded division -/

/-- Division as an operation without a result on a zero divisor. -/
def div? (n d : ℚ) : Option ℚ :=
  if d = 0 then none else some (n / d)

/-- The body of `calculateBarycentricCoordinateValue` with its division
guarded: the quotient of the two signed areas, with nothing before the
division that inspects the divisor. -/
def calculateBarycentricCoordinateValue? (a b c : vec2) (tri : triangle) : Option ℚ :=
  div? (calculateSignedArea (baryTri a b c)) (calculateSignedArea tri)

/-- The body of `calculateBarycentricCoordinate` over the guarded weight: `beta`,
then `gamma`, then `alpha = 1 - beta - gamma`; it has a result when both
weights have one. -/
def calculateBarycentricCoordinate? (tri : triangle) (point : vec2) : Option vec3 :=
  (calculateBarycentricCoordinateValue?
    ⟨tri.p0.x, tri.p0.y⟩ point ⟨tri.p2.x, tri.p2.y⟩ tri).bind fun beta =>
  (calculateBarycentricCoordinateValue?
    ⟨tri.p0.x, tri.p0.y⟩ ⟨tri.p1.x, tri.p1.y⟩ point tri).bind fun gamma =>
  let alpha := 1 - beta - gamma
  some ⟨alpha, beta, gamma⟩

/-! ## Geometry of the statements -/

/-- The point `q` lies on the closed segment from `u` to `v`:
`q = (1-t)*u + t*v` for some `0 ≤ t ≤ 1`. -/
def onSegment (u v q : vec2) : Prop :=
  ∃ t : ℚ, 0 ≤ t ∧ t ≤ 1 ∧
    q.x = (1 - t) * u.x + t * v.x ∧ q.y = (1 - t) * u.y + t * v.y

/-- The triangle with the depths of the spec's scenario: the positions of
`unitTri` with `z = -1, -2, -3`. -/
def depthTri : triangle :=
  mkTri ⟨0, 0, -1, 1⟩ ⟨1, 0, -2, 1⟩ ⟨0, 1, -3, 1⟩

/-- The unit triangle mirrored in its edge from `p0` to `p1`: positions
`(0,0)`, `(1,0)`, `(0,-1)`. -/
def mirrorTri : triangle :=
  mkTri ⟨0, 0, 0, 1⟩ ⟨1, 0, 0, 1⟩ ⟨0, -1, 0, 1⟩

/-- A triangle whose first position is the spec's clip-space point
`(2,-1,0,2)`. -/
def clipTri : triangle :=
  mkTri ⟨2, -1, 0, 2⟩ ⟨4, 2, -1, 1⟩ ⟨-3, 6, 3, 3⟩

/-- A column-accessible matrix with sixteen distinct entries: column `c` is
`(4c+1, 4c+2, 4c+3, 4c+4)`. -/
def sampleMat : mat4 :=
  { col0 := ⟨1, 2, 3, 4⟩, col1 := ⟨5, 6, 7, 8⟩
    col2 := ⟨9, 10, 11, 12⟩, col3 := ⟨13, 14, 15, 16⟩ }

/-! ## Binary floating point

A finite `float` or `double` is the rational it denotes, so `+0` and `-0` are
both `0`; the source only compares them, and they compare equal.  Every
operation rounds to nearest, ties to even, in the format C++ gives it: binary32
when both operands are `float`, binary64 when a `double` literal takes part,
and binary32 again when the value is stored in a `float`.  Products are rounded
before they are subtracted (no fused multiply-add).  A result that is not
finite (overflow, division by zero) is `none`, and a computation that meets one
is not followed further. -/

/-- Search for the exponent of a positive `x`: the `e` with `2^e ≤ x < 2^(e+1)`,
by doubling or halving at most `fuel` times. -/
def binadeAux : ℕ → ℚ → ℤ
  | 0, _ => 0
  | fuel + 1, x =>
    if x < 1 then binadeAux fuel (x * 2) - 1
    else if 2 ≤ x then binadeAux fuel (x / 2) + 1
    else 0

/-- Exponent of a non-zero rational: the `e` with `2^e ≤ |x| < 2^(e+1)`. -/
def binade (x : ℚ) : ℤ := binadeAux (x.num.natAbs + x.den) |x|

/-- Nearest integer, ties to the even one. -/
def roundHalfEven (x : ℚ) : ℤ :=
  let f := ⌊x⌋
  let r := x - f
  if r < 1/2 then f else if 1/2 < r then f + 1 else if f % 2 = 0 then f else f + 1

/-- Rounding to nearest, ties to even, in the binary format with `p` significand
bits and exponents from `emin` to `emax`; below `2^emin` the spacing stays that
of the least binade (subnormals); `none` when the rounded value overflows. -/
def roundBinary (p : ℕ) (emin emax : ℤ) (x : ℚ) : Option ℚ :=
  if x = 0 then some 0 else
  let e := max (binade x) emin
  let ulp : ℚ := 2 ^ (e - ((p : ℤ) - 1))
  let y : ℚ := roundHalfEven (x / ulp) * ulp
  if |y| < 2 ^ (emax + 1) then some y else none

/-- Rounding to `float` (binary32). -/
def toFloat (x : ℚ) : Option ℚ := roundBinary 24 (-126) 127 x

/-- Rounding to `double` (binary64). -/
def toDouble (x : ℚ) : Option ℚ := roundBinary 53 (-1022) 1023 x

/-- The body of `calculateSignedArea` in binary32: the two differences and the
product of each pair are `float` operations, as is their difference; `0.5` is a
`double`, so the product with it is a `double`, and the `return` stores it in a
`float`. -/
def calculateSignedAreaF32 (tri : triangle) : Option ℚ := do
  let a ← toFloat (tri.p2.x - tri.p0.x)
  let b ← toFloat (tri.p1.y - tri.p0.y)
  let ab ← toFloat (a * b)
  let c ← toFloat (tri.p1.x - tri.p0.x)
  let d ← toFloat (tri.p2.y - tri.p0.y)
  let cd ← toFloat (c * d)
  let s ← toFloat (ab - cd)
  let h ← toDouble ((1/2) * s)
  toFloat h

/-- The body of `calculateBarycentricCoordinateValue` in binary32: one `float`
division of the two areas; a zero divisor gives no finite result. -/
def calculateBarycentricCoordinateValueF32 (a b c : vec2) (tri : triangle) :
    Option ℚ := do
  let n ← calculateSignedAreaF32 (baryTri a b c)
  let d ← calculateSignedAreaF32 tri
  if d = 0 then none else toFloat (n / d)

/-- The body of `calculateBarycentricCoordinate` in binary32: `beta` and `gamma`
are `float`; `1.0` is a `double`, so `1.0-beta-gamma` is two `double`
subtractions, left to right, and `alpha` stores the result in a `float`. -/
def calculateBarycentricCoordinateF32 (tri : triangle) (point : vec2) :
    Option vec3 := do
  let beta ← calculateBarycentricCoordinateValueF32
    ⟨tri.p0.x, tri.p0.y⟩ point ⟨tri.p2.x, tri.p2.y⟩ tri
  let gamma ← calculateBarycentricCoordinateValueF32
    ⟨tri.p0.x, tri.p0.y⟩ ⟨tri.p1.x, tri.p1.y⟩ point tri
  let t ← toDouble (1 - beta)
  let u ← toDouble (t - gamma)
  let alpha ← toFloat u
  some ⟨alpha, beta, gamma⟩

/-! ## Binary32 test data

Decimal constants such as `0.3f` are written as the binary32 value they
denote. -/

/-- The constant `0.1f`. -/
def f0_1 : ℚ := 13421773 / 134217728

/-- The constant `0.2f`. -/
def f0_2 : ℚ := 13421773 / 67108864

/-- The constant `0.3f`. -/
def f0_3 : ℚ := 5033165 / 16777216

/-- The constant `0.4f`. -/
def f0_4 : ℚ := 13421773 / 33554432

/-- The constant `0.6f`. -/
def f0_6 : ℚ := 5033165 / 8388608

/-- The constant `0.7f`. -/
def f0_7 : ℚ := 11744051 / 16777216

/-- The constant `0.8f`. -/
def f0_8 : ℚ := 13421773 / 16777216

/-- The constant `0.9f`. -/
def f0_9 : ℚ := 7549747 / 8388608

/-- The constant `2.4f`. -/
def f2_4 : ℚ := 5033165 / 2097152

/-- The right triangle `(0,0)`, `(3,0)`, `(0,3)`. -/
def edgeTri : triangle :=
  mkTri ⟨0, 0, 0, 1⟩ ⟨3, 0, 0, 1⟩ ⟨0, 3, 0, 1⟩

/-- The thin triangle `(0,0)`, `(6139,6163)`, `(18416,18488)`; its centroid is
`(8185,8217)`. -/
def thinTri : triangle :=
  mkTri ⟨0, 0, 0, 1⟩ ⟨6139, 6163, 0, 1⟩ ⟨18416, 18488, 0, 1⟩

/-- The triangle `(1,2)`, `(1,1)`, `(2,1)`, whose box starts at `y = 1`. -/
def cornerTri : triangle :=
  mkTri ⟨1, 2, 0, 1⟩ ⟨1, 1, 0, 1⟩ ⟨2, 1, 0, 1⟩

/-- Three positions on one line through the origin: `(0.1f,0.3f)`, twice it
and eight times it. -/
def lineTri : triangle :=
  mkTri ⟨f0_1, f0_3, 0, 1⟩ ⟨f0_2, f0_6, 0, 1⟩ ⟨f0_8, f2_4, 0, 1⟩

/-- The triangle `(0.5,0.7f)`, `(0.9f,0.1f)`, `(0.7f,0.4f)`, which is not
collinear. -/
def sliverTri : triangle :=
  mkTri ⟨1/2, f0_7, 0, 1⟩ ⟨f0_9, f0_1, 0, 1⟩ ⟨f0_7, f0_4, 0, 1⟩

/-- The triangle `(0.2f,0)`, `(0,0.4f)`, `(0.3f,0.2f)`. -/
def windTri : triangle :=
  mkTri ⟨f0_2, 0, 0, 1⟩ ⟨0, f0_4, 0, 1⟩ ⟨f0_3, f0_2, 0, 1⟩

/-- A triangle whose first two positions coincide in `x,y`. -/
def coincide01Tri : triangle :=
  mkTri ⟨2, 3, 0, 1⟩ ⟨2, 3, 1, 1⟩ ⟨5, 4, 2, 1⟩

/-- A triangle whose first and last positions coincide in `x,y`. -/
def coincide02Tri : triangle :=
  mkTri ⟨2, 3, 0, 1⟩ ⟨7, 1, 1, 1⟩ ⟨2, 3, 2, 1⟩

/-- A triangle whose last two positions coincide in `x,y`. -/
def coincide12Tri : triangle :=
  mkTri ⟨6, 8, 0, 1⟩ ⟨2, 3, 1, 1⟩ ⟨2, 3, 2, 1⟩

/-! ## Shared lemmas -/

/-- With enough fuel the search returns the exponent of a positive rational. -/
theorem binadeAux_spec (fuel : ℕ) : ∀ x : ℚ,
    (2 : ℚ) ^ (-(fuel : ℤ)) ≤ x → x < 2 ^ ((fuel : ℤ) + 1) →
    (2 : ℚ) ^ (binadeAux fuel x) ≤ x ∧ x < 2 ^ (binadeAux fuel x + 1) := by
  induction fuel with
  | zero =>
    intro x h1 h2
    simp only [binadeAux]
    norm_num at h1 h2 ⊢
    exact ⟨h1, h2⟩
  | succ n ih =>
    intro x h1 h2
    have two_pos : (0 : ℚ) < 2 := by norm_num
    have two_ne : (2 : ℚ) ≠ 0 := by norm_num
    simp only [binadeAux]
    split_ifs with hlt hge
    · have a1 : (2 : ℚ) ^ (-(n : ℤ)) ≤ x * 2 := by
        have : (2 : ℚ) ^ (-(n : ℤ)) = 2 ^ (-((n + 1 : ℕ) : ℤ)) * 2 := by
          rw [← zpow_add_one₀ two_ne]; congr 1; push_cast; ring
        rw [this]; exact mul_le_mul_of_nonneg_right h1 two_pos.le
      have a2 : x * 2 < 2 ^ ((n : ℤ) + 1) := by
        have : (2 : ℚ) ≤ 2 ^ ((n : ℤ) + 1) := by
          have := one_le_zpow₀ (a := (2 : ℚ)) (by norm_num) (Int.natCast_nonneg n)
          rw [zpow_add_one₀ two_ne]; linarith
        linarith
      obtain ⟨b1, b2⟩ := ih (x * 2) a1 a2
      constructor
      · rw [zpow_sub_one₀ two_ne]
        linarith
      · rw [sub_add_cancel]
        rw [zpow_add_one₀ two_ne] at b2
        linarith
    · have a1 : (2 : ℚ) ^ (-(n : ℤ)) ≤ x / 2 := by
        have : (2 : ℚ) ^ (-(n : ℤ)) ≤ 1 :=
          zpow_le_one_of_nonpos₀ (by norm_num) (by simp)
        linarith
      have a2 : x / 2 < 2 ^ ((n : ℤ) + 1) := by
        have : (2 : ℚ) ^ (((n + 1 : ℕ) : ℤ) + 1) = 2 ^ ((n : ℤ) + 1) * 2 := by
          rw [← zpow_add_one₀ two_ne]; congr 1
        rw [this] at h2
        linarith
      obtain ⟨b1, b2⟩ := ih (x / 2) a1 a2
      constructor
      · rw [zpow_add_one₀ two_ne]; linarith
      · rw [zpow_add_one₀ two_ne]; linarith
    · push_neg at hlt hge
      norm_num
      exact ⟨hlt, hge⟩


/-- The exponent brackets the magnitude: `2^e ≤ |x| < 2^(e+1)`. -/
theorem binade_spec (x : ℚ) (hx : x ≠ 0) :
    (2 : ℚ) ^ (binade x) ≤ |x| ∧ |x| < 2 ^ (binade x + 1) := by
  have hden : (0 : ℚ) < x.den := by exact_mod_cast x.den_pos
  have hnum : (1 : ℚ) ≤ x.num.natAbs := by
    have : 0 < x.num.natAbs := Int.natAbs_pos.mpr (Rat.num_ne_zero.mpr hx)
    exact_mod_cast this
  have habs : |x| = (x.num.natAbs : ℚ) / x.den := by
    conv_lhs => rw [← Rat.num_div_den x]
    rw [abs_div, abs_of_pos hden, Nat.cast_natAbs, Int.cast_abs]
  have hden1 : (1 : ℚ) ≤ x.den := by exact_mod_cast x.den_pos
  have pow_gt : ∀ k : ℕ, (k : ℚ) < 2 ^ k := fun k => by exact_mod_cast Nat.lt_two_pow k
  apply binadeAux_spec
  · rw [zpow_neg, zpow_natCast, habs, inv_eq_one_div]
    rw [div_le_div_iff₀ (by positivity) hden]
    have h1 : (x.den : ℚ) < 2 ^ x.den := pow_gt _
    have h2 : (2 : ℚ) ^ x.den ≤ 2 ^ (x.num.natAbs + x.den) :=
      pow_le_pow_right₀ (by norm_num) (by omega)
    have h3 : (0 : ℚ) < 2 ^ (x.num.natAbs + x.den) := by positivity
    nlinarith
  · rw [habs, div_lt_iff₀ hden]
    have h1 : (x.num.natAbs : ℚ) < 2 ^ x.num.natAbs := pow_gt _
    have h2 : (2 : ℚ) ^ x.num.natAbs ≤ 2 ^ (((x.num.natAbs + x.den : ℕ) : ℤ) + 1) := by
      rw [← zpow_natCast]
      exact zpow_le_zpow_right₀ (by norm_num) (by push_cast; omega)
    have h3 : (0 : ℚ) < 2 ^ (((x.num.natAbs + x.den : ℕ) : ℤ) + 1) := by positivity
    nlinarith

/-- The nearest integer is within one half. -/
theorem roundHalfEven_close (x : ℚ) : |(roundHalfEven x : ℚ) - x| ≤ 1/2 := by
  have h1 := Int.floor_le x
  have h2 := Int.lt_floor_add_one x
  unfold roundHalfEven
  simp only
  rw [abs_le]
  split_ifs with a b c
  · constructor <;> linarith
  · push_cast; constructor <;> linarith
  · push_neg at a b
    constructor <;> linarith
  · push_neg at a b
    push_cast
    constructor <;> linarith

/-- A rounded value is a multiple of the spacing of its binade and lies within
half that spacing of the exact value. -/
theorem roundBinary_close (p : ℕ) (emin emax : ℤ) (x y : ℚ)
    (h : roundBinary p emin emax x = some y) :
    (∃ k : ℤ, y = k * 2 ^ (max (binade x) emin - ((p : ℤ) - 1))) ∧
    |y - x| ≤ 2 ^ (max (binade x) emin - ((p : ℤ) - 1)) / 2 := by
  unfold roundBinary at h
  by_cases h0 : x = 0
  · rw [if_pos h0] at h
    simp only [Option.some.injEq] at h
    subst h0
    subst h
    refine ⟨⟨0, by simp⟩, ?_⟩
    simp only [sub_self, abs_zero]
    positivity
  · rw [if_neg h0] at h
    simp only at h
    split_ifs at h
    simp only [Option.some.injEq] at h
    have hu : (0 : ℚ) < 2 ^ (max (binade x) emin - ((p : ℤ) - 1)) := by positivity
    refine ⟨⟨_, h.symm⟩, ?_⟩
    rw [← h]
    have hc := roundHalfEven_close (x / 2 ^ (max (binade x) emin - ((p : ℤ) - 1)))
    have : (roundHalfEven (x / 2 ^ (max (binade x) emin - ((p : ℤ) - 1))) : ℚ)
          * 2 ^ (max (binade x) emin - ((p : ℤ) - 1)) - x
        = ((roundHalfEven (x / 2 ^ (max (binade x) emin - ((p : ℤ) - 1))) : ℚ)
            - x / 2 ^ (max (binade x) emin - ((p : ℤ) - 1)))
          * 2 ^ (max (binade x) emin - ((p : ℤ) - 1)) := by
      field_simp
    rw [this, abs_mul, abs_of_pos hu]
    calc _ ≤ 1/2 * 2 ^ (max (binade x) emin - ((p : ℤ) - 1)) :=
          mul_le_mul_of_nonneg_right hc hu.le
      _ = _ := by ring

/-- The decimal constants of the test data round to the listed binary32
values. -/
theorem float_constants :
    toFloat (1/10) = some f0_1 ∧ toFloat (2/10) = some f0_2 ∧
    toFloat (3/10) = some f0_3 ∧ toFloat (4/10) = some f0_4 ∧
    toFloat (6/10) = some f0_6 ∧ toFloat (7/10) = some f0_7 ∧
    toFloat (8/10) = some f0_8 ∧ toFloat (9/10) = some f0_9 ∧
    toFloat (24/10) = some f2_4 := by
  decide!

/-- Rounding leaves binary32 values unchanged, here the test constants and
the other coordinates of the test data. -/
theorem float_values_fixed :
    ∀ x ∈ [f0_1, f0_2, f0_3, f0_4, f0_6, f0_7, f0_8, f0_9, f2_4, 0, 1/2, 1, 2, 3, 100,
        6139, 6163, 18416, 18488, 8185, 8217, 16777215/16777216],
      toFloat x = some x := by
  decide!

/-- The largest finite binary32 value is kept, the next step overflows, half
the least subnormal rounds to zero and three halves of it round up. -/
theorem float_range :
    toFloat (2^128 - 2^104) = some (2^128 - 2^104) ∧
    toFloat (2^128 - 2^103) = none ∧
    toFloat (1 / 2^150) = some 0 ∧
    toFloat (3 / 2^150) = some (1 / 2^148) := by
  decide!

theorem signedArea_unitTri : calculateSignedArea unitTri = -(1/2) := by
  simp [calculateSignedArea, unitTri, mkTri]

theorem signedArea_unitTri_ne : calculateSignedArea unitTri ≠ 0 := by
  rw [signedArea_unitTri]; norm_num

theorem signedArea_skewTri_ne : calculateSignedArea skewTri ≠ 0 := by
  simp only [calculateSignedArea, skewTri]; norm_num

/-- Twice the signed area, written out. -/
theorem two_mul_signedArea (tri : triangle) :
    2 * calculateSignedArea tri
      = (tri.p2.x - tri.p0.x)*(tri.p1.y - tri.p0.y)
        - (tri.p1.x - tri.p0.x)*(tri.p2.y - tri.p0.y) := by
  unfold calculateSignedArea; ring

/-- The second weight, cleared of its denominator. -/
theorem beta_mul_area (tri : triangle) (q : vec2)
    (h : calculateSignedArea tri ≠ 0) :
    (calculateBarycentricCoordinate tri q).y * (2 * calculateSignedArea tri)
      = (tri.p2.x - tri.p0.x)*(q.y - tri.p0.y)
        - (q.x - tri.p0.x)*(tri.p2.y - tri.p0.y) := by
  simp only [calculateBarycentricCoordinate, calculateBarycentricCoordinateValue]
  field_simp
  simp only [calculateSignedArea, baryTri]
  ring

/-- The third weight, cleared of its denominator. -/
theorem gamma_mul_area (tri : triangle) (q : vec2)
    (h : calculateSignedArea tri ≠ 0) :
    (calculateBarycentricCoordinate tri q).z * (2 * calculateSignedArea tri)
      = (q.x - tri.p0.x)*(tri.p1.y - tri.p0.y)
        - (tri.p1.x - tri.p0.x)*(q.y - tri.p0.y) := by
  simp only [calculateBarycentricCoordinate, calculateBarycentricCoordinateValue]
  field_simp
  simp only [calculateSignedArea, baryTri]
  ring

/-- The first weight is one minus the other two. -/
theorem alpha_eq (tri : triangle) (q : vec2) :
    (calculateBarycentricCoordinate tri q).x
      = 1 - (calculateBarycentricCoordinate tri q).y
          - (calculateBarycentricCoordinate tri q).z := rfl

/-- The sub-triangle on the three vertices themselves has the area of the
triangle. -/
theorem signedArea_baryTri_self (tri : triangle) :
    calculateSignedArea (baryTri (xy tri.p0) (xy tri.p1) (xy tri.p2))
      = calculateSignedArea tri := rfl

/-- The weights reproduce the point as a combination of the vertices. -/
theorem bary_combination (tri : triangle) (q : vec2)
    (h : calculateSignedArea tri ≠ 0) :
    (calculateBarycentricCoordinate tri q).x * tri.p0.x
      + (calculateBarycentricCoordinate tri q).y * tri.p1.x
      + (calculateBarycentricCoordinate tri q).z * tri.p2.x = q.x ∧
    (calculateBarycentricCoordinate tri q).x * tri.p0.y
      + (calculateBarycentricCoordinate tri q).y * tri.p1.y
      + (calculateBarycentricCoordinate tri q).z * tri.p2.y = q.y := by
  have h2 : 2 * calculateSignedArea tri ≠ 0 := mul_ne_zero two_ne_zero h
  have hA := two_mul_signedArea tri
  have hb := beta_mul_area tri q h
  have hg := gamma_mul_area tri q h
  rw [alpha_eq]
  generalize (calculateBarycentricCoordinate tri q).y = b at hb ⊢
  generalize (calculateBarycentricCoordinate tri q).z = g at hg ⊢
  generalize 2 * calculateSignedArea tri = A at h2 hA hb hg
  constructor
  · apply mul_right_cancel₀ h2
    linear_combination (tri.p1.x - tri.p0.x) * hb + (tri.p2.x - tri.p0.x) * hg
      + (tri.p0.x - q.x) * hA
  · apply mul_right_cancel₀ h2
    linear_combination (tri.p1.y - tri.p0.y) * hb + (tri.p2.y - tri.p0.y) * hg
      + (tri.p0.y - q.y) * hA

/-- Barycentric weights are unique: any weights of sum one that reproduce the
point are the computed ones. -/
theorem bary_unique (tri : triangle) (q : vec2) (a b c : ℚ)
    (h : calculateSignedArea tri ≠ 0) (hsum : a + b + c = 1)
    (hx : q.x = a * tri.p0.x + b * tri.p1.x + c * tri.p2.x)
    (hy : q.y = a * tri.p0.y + b * tri.p1.y + c * tri.p2.y) :
    calculateBarycentricCoordinate tri q = ⟨a, b, c⟩ := by
  have h2 : 2 * calculateSignedArea tri ≠ 0 := mul_ne_zero two_ne_zero h
  have hA := two_mul_signedArea tri
  have hb := beta_mul_area tri q h
  have hg := gamma_mul_area tri q h
  have ha : a = 1 - b - c := by linarith
  have hbeta : (calculateBarycentricCoordinate tri q).y = b := by
    apply mul_right_cancel₀ h2
    rw [hb, hA, hx, hy, ha]; ring
  have hgamma : (calculateBarycentricCoordinate tri q).z = c := by
    apply mul_right_cancel₀ h2
    rw [hg, hA, hx, hy, ha]; ring
  have halpha : (calculateBarycentricCoordinate tri q).x = a := by
    rw [alpha_eq, hbeta, hgamma, ha]
  have hstruct : calculateBarycentricCoordinate tri q
      = ⟨(calculateBarycentricCoordinate tri q).x,
         (calculateBarycentricCoordinate tri q).y,
         (calculateBarycentricCoordinate tri q).z⟩ := rfl
  rw [hstruct, halpha, hbeta, hgamma]

/-- The bounds test, read as a proposition. -/
theorem inBounds_iff (v : vec3) :
    isBarycentricCoordInBounds v = true
      ↔ (0 ≤ v.x ∧ v.x ≤ 1) ∧ (0 ≤ v.y ∧ v.y ≤ 1) ∧ (0 ≤ v.z ∧ v.z ≤ 1) := by
  simp only [isBarycentricCoordInBounds, Bool.and_eq_true, decide_eq_true_eq, ge_iff_le]
  tauto

/-- Non-negative weights of sum one pass the bounds test. -/
theorem inBounds_of_nonneg_sum (a b c : ℚ) (ha : 0 ≤ a) (hb : 0 ≤ b) (hc : 0 ≤ c)
    (hsum : a + b + c = 1) : isBarycentricCoordInBounds ⟨a, b, c⟩ = true := by
  rw [inBounds_iff]
  refine ⟨⟨ha, ?_⟩, ⟨hb, ?_⟩, ⟨hc, ?_⟩⟩ <;> simp only <;> linarith

/-- A combination with non-negative weights of sum one lies between any lower
and upper bound of the three combined values. -/
theorem convex_between (a b c u v w lo hi : ℚ) (ha : 0 ≤ a) (hb : 0 ≤ b) (hc : 0 ≤ c)
    (hsum : a + b + c = 1)
    (hu : lo ≤ u ∧ u ≤ hi) (hv : lo ≤ v ∧ v ≤ hi) (hw : lo ≤ w ∧ w ≤ hi) :
    lo ≤ a * u + b * v + c * w ∧ a * u + b * v + c * w ≤ hi := by
  have e1 : a * u + b * v + c * w - lo
      = a * (u - lo) + b * (v - lo) + c * (w - lo) := by
    have : lo = (a + b + c) * lo := by rw [hsum, one_mul]
    nth_rewrite 1 [this]; ring
  have e2 : hi - (a * u + b * v + c * w)
      = a * (hi - u) + b * (hi - v) + c * (hi - w) := by
    have : hi = (a + b + c) * hi := by rw [hsum, one_mul]
    nth_rewrite 1 [this]; ring
  have n1 : 0 ≤ a * (u - lo) + b * (v - lo) + c * (w - lo) :=
    add_nonneg (add_nonneg (mul_nonneg ha (by linarith [hu.1]))
      (mul_nonneg hb (by linarith [hv.1]))) (mul_nonneg hc (by linarith [hw.1]))
  have n2 : 0 ≤ a * (hi - u) + b * (hi - v) + c * (hi - w) :=
    add_nonneg (add_nonneg (mul_nonneg ha (by linarith [hu.2]))
      (mul_nonneg hb (by linarith [hv.2]))) (mul_nonneg hc (by linarith [hw.2]))
  constructor <;> linarith

/-- Every coordinate of every vertex lies in the bounding box. -/
theorem aabb_bounds (tri : triangle) :
    ((getAABBForTriangle tri).1.x ≤ tri.p0.x ∧ tri.p0.x ≤ (getAABBForTriangle tri).2.x) ∧
    ((getAABBForTriangle tri).1.x ≤ tri.p1.x ∧ tri.p1.x ≤ (getAABBForTriangle tri).2.x) ∧
    ((getAABBForTriangle tri).1.x ≤ tri.p2.x ∧ tri.p2.x ≤ (getAABBForTriangle tri).2.x) ∧
    ((getAABBForTriangle tri).1.y ≤ tri.p0.y ∧ tri.p0.y ≤ (getAABBForTriangle tri).2.y) ∧
    ((getAABBForTriangle tri).1.y ≤ tri.p1.y ∧ tri.p1.y ≤ (getAABBForTriangle tri).2.y) ∧
    ((getAABBForTriangle tri).1.y ≤ tri.p2.y ∧ tri.p2.y ≤ (getAABBForTriangle tri).2.y) ∧
    ((getAABBForTriangle tri).1.z ≤ tri.p0.z ∧ tri.p0.z ≤ (getAABBForTriangle tri).2.z) ∧
    ((getAABBForTriangle tri).1.z ≤ tri.p1.z ∧ tri.p1.z ≤ (getAABBForTriangle tri).2.z) ∧
    ((getAABBForTriangle tri).1.z ≤ tri.p2.z ∧ tri.p2.z ≤ (getAABBForTriangle tri).2.z) := by
  simp only [getAABBForTriangle, min_le_iff, le_max_iff, le_refl, true_or, or_true,
    and_self]

/-- The least of three values is one of them. -/
theorem min3_mem (a b c : ℚ) :
    min (min a b) c = a ∨ min (min a b) c = b ∨ min (min a b) c = c := by
  rcases min_choice (min a b) c with h | h
  · rcases min_choice a b with h1 | h1
    · exact Or.inl (h.trans h1)
    · exact Or.inr (Or.inl (h.trans h1))
  · exact Or.inr (Or.inr h)

/-- The greatest of three values is one of them. -/
theorem max3_mem (a b c : ℚ) :
    max (max a b) c = a ∨ max (max a b) c = b ∨ max (max a b) c = c := by
  rcases max_choice (max a b) c with h | h
  · rcases max_choice a b with h1 | h1
    · exact Or.inl (h.trans h1)
    · exact Or.inr (Or.inl (h.trans h1))
  · exact Or.inr (Or.inr h)

/-- One position survives the forward blocks followed by the inverse blocks. -/
theorem vertex_roundtrip (p : vec4) (resolution : vec2)
    (hw : p.w ≠ 0) (hx : resolution.x ≠ 0) (hy : resolution.y ≠ 0) :
    perspectiveMultiply (rescaleToSigned (divideByResolution resolution
      (scaleByResolution resolution (rescaleToUnit (perspectiveDivide p))))) = p := by
  obtain ⟨x, y, z, w⟩ := p
  simp only at hw
  simp only [perspectiveMultiply, rescaleToSigned, divideByResolution,
    scaleByResolution, rescaleToUnit, perspectiveDivide, vec4.mk.injEq, and_true]
  refine ⟨?_, ?_, ?_⟩ <;> field_simp <;> ring

/-- Reversing a segment keeps its points. -/
theorem onSegment_symm (u v q : vec2) (h : onSegment u v q) : onSegment v u q := by
  obtain ⟨t, h0, h1, hx, hy⟩ := h
  refine ⟨1 - t, by linarith, by linarith, ?_, ?_⟩
  · rw [hx]; ring
  · rw [hy]; ring

/-- A point on the edge from `p0` to `p1` has weights `(1-t, t, 0)`. -/
theorem edge01 (tri : triangle) (q : vec2) (h : calculateSignedArea tri ≠ 0)
    (hq : onSegment (xy tri.p0) (xy tri.p1) q) :
    isBarycentricCoordInBounds (calculateBarycentricCoordinate tri q) = true ∧
      (calculateBarycentricCoordinate tri q).z = 0 := by
  obtain ⟨t, h0, h1, hx, hy⟩ := hq
  simp only [xy] at hx hy
  rw [bary_unique tri q (1 - t) t 0 h (by ring) (by rw [hx]; ring) (by rw [hy]; ring)]
  exact ⟨inBounds_of_nonneg_sum _ _ _ (by linarith) h0 le_rfl (by ring), rfl⟩

/-- A point on the edge from `p1` to `p2` has weights `(0, 1-t, t)`. -/
theorem edge12 (tri : triangle) (q : vec2) (h : calculateSignedArea tri ≠ 0)
    (hq : onSegment (xy tri.p1) (xy tri.p2) q) :
    isBarycentricCoordInBounds (calculateBarycentricCoordinate tri q) = true ∧
      (calculateBarycentricCoordinate tri q).x = 0 := by
  obtain ⟨t, h0, h1, hx, hy⟩ := hq
  simp only [xy] at hx hy
  rw [bary_unique tri q 0 (1 - t) t h (by ring) (by rw [hx]; ring) (by rw [hy]; ring)]
  exact ⟨inBounds_of_nonneg_sum _ _ _ le_rfl (by linarith) h0 (by ring), rfl⟩

/-- A point on the edge from `p2` to `p0` has weights `(t, 0, 1-t)`. -/
theorem edge20 (tri : triangle) (q : vec2) (h : calculateSignedArea tri ≠ 0)
    (hq : onSegment (xy tri.p2) (xy tri.p0) q) :
    isBarycentricCoordInBounds (calculateBarycentricCoordinate tri q) = true ∧
      (calculateBarycentricCoordinate tri q).y = 0 := by
  obtain ⟨t, h0, h1, hx, hy⟩ := hq
  simp only [xy] at hx hy
  rw [bary_unique tri q t 0 (1 - t) h (by ring) (by rw [hx]; ring) (by rw [hy]; ring)]
  exact ⟨inBounds_of_nonneg_sum _ _ _ h0 le_rfl (by linarith) (by ring), rfl⟩

theorem signedArea_mirrorTri_ne : calculateSignedArea mirrorTri ≠ 0 := by
  simp only [calculateSignedArea, mirrorTri, mkTri]; norm_num

/-- The midpoint `(1/2,0)` lies on the edge from `p0` to `p1` of the unit
triangle. -/
theorem mid_on_unitTri : onSegment (xy unitTri.p0) (xy unitTri.p1) ⟨1/2, 0⟩ :=
  ⟨1/2, by norm_num, by norm_num,
    by simp only [xy, unitTri, mkTri]; norm_num,
    by simp only [xy, unitTri, mkTri]; norm_num⟩

/-- The midpoint `(1/2,0)` lies on the edge from `p0` to `p1` of the mirrored
triangle. -/
theorem mid_on_mirrorTri : onSegment (xy mirrorTri.p0) (xy mirrorTri.p1) ⟨1/2, 0⟩ :=
  ⟨1/2, by norm_num, by norm_num,
    by simp only [xy, mirrorTri, mkTri]; norm_num,
    by simp only [xy, mirrorTri, mkTri]; norm_num⟩

/-- The guarded division has a result exactly on a non-zero divisor. -/
theorem div?_isSome (n d : ℚ) : (div? n d).isSome = true ↔ d ≠ 0 := by
  unfold div?
  split_ifs with hd <;> simp [hd]

/-- On a non-zero divisor the guarded division is the quotient. -/
theorem div?_of_ne (n d : ℚ) (hd : d ≠ 0) : div? n d = some (n / d) := by
  unfold div?
  rw [if_neg hd]

/-- Linearly dependent edge vectors give signed area zero. -/
theorem signedArea_zero_of_dependent (tri : triangle) (s t : ℚ) (hst : s ≠ 0 ∨ t ≠ 0)
    (ex : s * (tri.p1.x - tri.p0.x) + t * (tri.p2.x - tri.p0.x) = 0)
    (ey : s * (tri.p1.y - tri.p0.y) + t * (tri.p2.y - tri.p0.y) = 0) :
    calculateSignedArea tri = 0 := by
  have hA := two_mul_signedArea tri
  have h2 : (2 : ℚ) * calculateSignedArea tri = 0 := by
    rw [hA]
    rcases hst with hs | ht
    · apply mul_left_cancel₀ hs
      linear_combination (tri.p2.x - tri.p0.x) * ey - (tri.p2.y - tri.p0.y) * ex
    · apply mul_left_cancel₀ ht
      linear_combination (tri.p1.y - tri.p0.y) * ex - (tri.p1.x - tri.p0.x) * ey
  exact (mul_eq_zero.mp h2).resolve_left two_ne_zero

/-! ## Barycentric coordinates -/

/-- C1: for a triangle of non-zero signed area, the barycentric coordinate at
the triangle's own vertices is the unit triple of that vertex: `(1,0,0)` at
`p0`, `(0,1,0)` at `p1` and `(0,0,1)` at `p2`. -/
theorem barycentric_at_vertices (tri : triangle)
    (h : calculateSignedArea tri ≠ 0) :
    calculateBarycentricCoordinate tri ⟨tri.p0.x, tri.p0.y⟩ = ⟨1, 0, 0⟩ ∧
    calculateBarycentricCoordinate tri ⟨tri.p1.x, tri.p1.y⟩ = ⟨0, 1, 0⟩ ∧
    calculateBarycentricCoordinate tri ⟨tri.p2.x, tri.p2.y⟩ = ⟨0, 0, 1⟩ := by
  have hself := signedArea_baryTri_self tri
  simp only [xy] at hself
  refine ⟨?_, ?_, ?_⟩
  · simp [calculateBarycentricCoordinate, calculateBarycentricCoordinateValue,
      calculateSignedArea, baryTri]
  · have hg : calculateSignedArea
        (baryTri ⟨tri.p0.x, tri.p0.y⟩ ⟨tri.p1.x, tri.p1.y⟩ ⟨tri.p1.x, tri.p1.y⟩) = 0 := by
      simp [calculateSignedArea, baryTri]
    simp only [calculateBarycentricCoordinate, calculateBarycentricCoordinateValue,
      hself, hg, div_self h, zero_div]
    norm_num
  · have hb : calculateSignedArea
        (baryTri ⟨tri.p0.x, tri.p0.y⟩ ⟨tri.p2.x, tri.p2.y⟩ ⟨tri.p2.x, tri.p2.y⟩) = 0 := by
      simp [calculateSignedArea, baryTri]
    simp only [calculateBarycentricCoordinate, calculateBarycentricCoordinateValue,
      hself, hb, div_self h, zero_div]
    norm_num

/-- C1, instance: the unit triangle has non-zero area and its vertices get the
unit triples. -/
theorem barycentric_at_vertices_witness :
    calculateSignedArea unitTri ≠ 0 ∧
    calculateBarycentricCoordinate unitTri ⟨unitTri.p0.x, unitTri.p0.y⟩ = ⟨1, 0, 0⟩ ∧
    calculateBarycentricCoordinate unitTri ⟨unitTri.p1.x, unitTri.p1.y⟩ = ⟨0, 1, 0⟩ ∧
    calculateBarycentricCoordinate unitTri ⟨unitTri.p2.x, unitTri.p2.y⟩ = ⟨0, 0, 1⟩ :=
  ⟨signedArea_unitTri_ne, barycentric_at_vertices unitTri signedArea_unitTri_ne⟩

/-- C2: for a triangle of non-zero signed area and any point `q`, the triple
`(alpha, beta, gamma)` reproduces `q` as the weighted combination of the three
vertices, in `x` and in `y`; for `p0=(0,0)`, `p1=(1,0)`, `p2=(0,1)` and
`q=(1/4,1/4)` the triple is `(1/2,1/4,1/4)`. -/
theorem barycentric_reconstructs_point :
    (∀ (tri : triangle) (q : vec2), calculateSignedArea tri ≠ 0 →
      (calculateBarycentricCoordinate tri q).x * tri.p0.x
        + (calculateBarycentricCoordinate tri q).y * tri.p1.x
        + (calculateBarycentricCoordinate tri q).z * tri.p2.x = q.x ∧
      (calculateBarycentricCoordinate tri q).x * tri.p0.y
        + (calculateBarycentricCoordinate tri q).y * tri.p1.y
        + (calculateBarycentricCoordinate tri q).z * tri.p2.y = q.y) ∧
    calculateBarycentricCoordinate unitTri ⟨1/4, 1/4⟩ = ⟨1/2, 1/4, 1/4⟩ := by
  refine ⟨fun tri q h => bary_combination tri q h, ?_⟩
  · simp only [calculateBarycentricCoordinate, calculateBarycentricCoordinateValue,
      calculateSignedArea, baryTri, unitTri, mkTri]
    norm_num

/-- C2, instance: the general statement applied to the unit triangle and the
point `(1/4,1/4)`. -/
theorem barycentric_reconstructs_point_witness :
    calculateSignedArea unitTri ≠ 0 ∧
    ((calculateBarycentricCoordinate unitTri ⟨1/4, 1/4⟩).x * unitTri.p0.x
        + (calculateBarycentricCoordinate unitTri ⟨1/4, 1/4⟩).y * unitTri.p1.x
        + (calculateBarycentricCoordinate unitTri ⟨1/4, 1/4⟩).z * unitTri.p2.x = 1/4 ∧
      (calculateBarycentricCoordinate unitTri ⟨1/4, 1/4⟩).x * unitTri.p0.y
        + (calculateBarycentricCoordinate unitTri ⟨1/4, 1/4⟩).y * unitTri.p1.y
        + (calculateBarycentricCoordinate unitTri ⟨1/4, 1/4⟩).z * unitTri.p2.y = 1/4) :=
  ⟨signedArea_unitTri_ne,
    barycentric_reconstructs_point.1 unitTri ⟨1/4, 1/4⟩ signedArea_unitTri_ne⟩

/-- C3, amended: in exact arithmetic, for a triangle of non-zero signed area
and any point `q`, the three components of the barycentric coordinate sum to
exactly one. -/
theorem barycentric_sum_one (tri : triangle) (q : vec2)
    (_h : calculateSignedArea tri ≠ 0) :
    (calculateBarycentricCoordinate tri q).x
      + (calculateBarycentricCoordinate tri q).y
      + (calculateBarycentricCoordinate tri q).z = 1 := by
  rw [alpha_eq]; ring

/-- C3, instance: the weights of `(3,-7)` against the unit triangle sum to one. -/
theorem barycentric_sum_one_witness :
    calculateSignedArea unitTri ≠ 0 ∧
    (calculateBarycentricCoordinate unitTri ⟨3, -7⟩).x
      + (calculateBarycentricCoordinate unitTri ⟨3, -7⟩).y
      + (calculateBarycentricCoordinate unitTri ⟨3, -7⟩).z = 1 :=
  ⟨signedArea_unitTri_ne, barycentric_sum_one unitTri ⟨3, -7⟩ signedArea_unitTri_ne⟩

/-! ## Point-in-triangle test -/

/-- C4, amended: in exact arithmetic, for a triangle of non-zero signed area
and any point `q`, the bounds
test on the barycentric coordinate of `q` is true exactly when `q` lies in the
closed triangle, that is when `q` is a combination of the three vertices with
non-negative weights of sum one. -/
theorem inBounds_iff_in_closed_triangle (tri : triangle) (q : vec2)
    (h : calculateSignedArea tri ≠ 0) :
    isBarycentricCoordInBounds (calculateBarycentricCoordinate tri q) = true ↔
      ∃ a b c : ℚ, 0 ≤ a ∧ 0 ≤ b ∧ 0 ≤ c ∧ a + b + c = 1 ∧
        q.x = a * tri.p0.x + b * tri.p1.x + c * tri.p2.x ∧
        q.y = a * tri.p0.y + b * tri.p1.y + c * tri.p2.y := by
  constructor
  · intro hin
    rw [inBounds_iff] at hin
    obtain ⟨hx, hy⟩ := bary_combination tri q h
    refine ⟨(calculateBarycentricCoordinate tri q).x,
      (calculateBarycentricCoordinate tri q).y,
      (calculateBarycentricCoordinate tri q).z,
      hin.1.1, hin.2.1.1, hin.2.2.1, ?_, hx.symm, hy.symm⟩
    rw [alpha_eq]; ring
  · rintro ⟨a, b, c, ha, hb, hc, hsum, hx, hy⟩
    rw [bary_unique tri q a b c h hsum hx hy]
    exact inBounds_of_nonneg_sum a b c ha hb hc hsum

/-- C4, instance: for the unit triangle and the point `(1/4,1/4)` the
equivalence holds, and both of its sides are true. -/
theorem inBounds_iff_in_closed_triangle_witness :
    calculateSignedArea unitTri ≠ 0 ∧
    isBarycentricCoordInBounds (calculateBarycentricCoordinate unitTri ⟨1/4, 1/4⟩) = true ∧
    (isBarycentricCoordInBounds (calculateBarycentricCoordinate unitTri ⟨1/4, 1/4⟩) = true ↔
      ∃ a b c : ℚ, 0 ≤ a ∧ 0 ≤ b ∧ 0 ≤ c ∧ a + b + c = 1 ∧
        (1/4 : ℚ) = a * unitTri.p0.x + b * unitTri.p1.x + c * unitTri.p2.x ∧
        (1/4 : ℚ) = a * unitTri.p0.y + b * unitTri.p1.y + c * unitTri.p2.y) :=
  ⟨signedArea_unitTri_ne,
    (inBounds_iff_in_closed_triangle unitTri ⟨1/4, 1/4⟩ signedArea_unitTri_ne).2
      ⟨1/2, 1/4, 1/4, by norm_num, by norm_num, by norm_num, by norm_num,
        by simp only [unitTri, mkTri]; norm_num, by simp only [unitTri, mkTri]; norm_num⟩,
    inBounds_iff_in_closed_triangle unitTri ⟨1/4, 1/4⟩ signedArea_unitTri_ne⟩

/-- C5, amended: in exact arithmetic, for a triangle of non-zero signed area,
the bounds test on the
barycentric coordinate is true at each of the three vertices and at the
centroid. -/
theorem inBounds_at_vertices_and_centroid (tri : triangle)
    (h : calculateSignedArea tri ≠ 0) :
    isBarycentricCoordInBounds
      (calculateBarycentricCoordinate tri ⟨tri.p0.x, tri.p0.y⟩) = true ∧
    isBarycentricCoordInBounds
      (calculateBarycentricCoordinate tri ⟨tri.p1.x, tri.p1.y⟩) = true ∧
    isBarycentricCoordInBounds
      (calculateBarycentricCoordinate tri ⟨tri.p2.x, tri.p2.y⟩) = true ∧
    isBarycentricCoordInBounds
      (calculateBarycentricCoordinate tri
        ⟨(tri.p0.x + tri.p1.x + tri.p2.x) / 3, (tri.p0.y + tri.p1.y + tri.p2.y) / 3⟩)
      = true := by
  refine ⟨?_, ?_, ?_, ?_⟩
  · rw [bary_unique tri _ 1 0 0 h (by norm_num) (by simp) (by simp)]
    exact inBounds_of_nonneg_sum 1 0 0 (by norm_num) le_rfl le_rfl (by norm_num)
  · rw [bary_unique tri _ 0 1 0 h (by norm_num) (by simp) (by simp)]
    exact inBounds_of_nonneg_sum 0 1 0 le_rfl (by norm_num) le_rfl (by norm_num)
  · rw [bary_unique tri _ 0 0 1 h (by norm_num) (by simp) (by simp)]
    exact inBounds_of_nonneg_sum 0 0 1 le_rfl le_rfl (by norm_num) (by norm_num)
  · rw [bary_unique tri _ (1/3) (1/3) (1/3) h (by norm_num)
      (by simp only; ring) (by simp only; ring)]
    exact inBounds_of_nonneg_sum (1/3) (1/3) (1/3) (by norm_num) (by norm_num)
      (by norm_num) (by norm_num)

/-- C5, instance: the three vertices and the centroid of the skew triangle pass
the bounds test. -/
theorem inBounds_at_vertices_and_centroid_witness :
    calculateSignedArea skewTri ≠ 0 ∧
    isBarycentricCoordInBounds
      (calculateBarycentricCoordinate skewTri ⟨skewTri.p0.x, skewTri.p0.y⟩) = true ∧
    isBarycentricCoordInBounds
      (calculateBarycentricCoordinate skewTri ⟨skewTri.p1.x, skewTri.p1.y⟩) = true ∧
    isBarycentricCoordInBounds
      (calculateBarycentricCoordinate skewTri ⟨skewTri.p2.x, skewTri.p2.y⟩) = true ∧
    isBarycentricCoordInBounds
      (calculateBarycentricCoordinate skewTri
        ⟨(skewTri.p0.x + skewTri.p1.x + skewTri.p2.x) / 3,
         (skewTri.p0.y + skewTri.p1.y + skewTri.p2.y) / 3⟩)
      = true :=
  ⟨signedArea_skewTri_ne, inBounds_at_vertices_and_centroid skewTri signedArea_skewTri_ne⟩

/-- C6, amended: in exact arithmetic, for a triangle of non-zero signed area,
a point whose `x` or `y` lies
outside the extent of the box of `getAABBForTriangle` fails the bounds test on
its barycentric coordinate; no covered point lies outside the box. -/
theorem not_inBounds_outside_aabb (tri : triangle) (q : vec2)
    (h : calculateSignedArea tri ≠ 0)
    (hout : q.x < (getAABBForTriangle tri).1.x ∨ q.x > (getAABBForTriangle tri).2.x ∨
      q.y < (getAABBForTriangle tri).1.y ∨ q.y > (getAABBForTriangle tri).2.y) :
    isBarycentricCoordInBounds (calculateBarycentricCoordinate tri q) = false := by
  by_contra hne
  have hin : isBarycentricCoordInBounds (calculateBarycentricCoordinate tri q) = true := by
    simpa using hne
  rw [inBounds_iff] at hin
  obtain ⟨hx, hy⟩ := bary_combination tri q h
  have hsum : (calculateBarycentricCoordinate tri q).x
      + (calculateBarycentricCoordinate tri q).y
      + (calculateBarycentricCoordinate tri q).z = 1 := by rw [alpha_eq]; ring
  obtain ⟨x0, x1, x2, y0, y1, y2, -⟩ := aabb_bounds tri
  have bx := convex_between _ _ _ tri.p0.x tri.p1.x tri.p2.x _ _
    hin.1.1 hin.2.1.1 hin.2.2.1 hsum x0 x1 x2
  have by_ := convex_between _ _ _ tri.p0.y tri.p1.y tri.p2.y _ _
    hin.1.1 hin.2.1.1 hin.2.2.1 hsum y0 y1 y2
  rw [hx] at bx
  rw [hy] at by_
  rcases hout with h1 | h1 | h1 | h1
  · exact absurd bx.1 (not_le.mpr h1)
  · exact absurd bx.2 (not_le.mpr h1)
  · exact absurd by_.1 (not_le.mpr h1)
  · exact absurd by_.2 (not_le.mpr h1)

/-- C6, instance: the origin lies left of the box of the skew triangle and
fails the bounds test. -/
theorem not_inBounds_outside_aabb_witness :
    calculateSignedArea skewTri ≠ 0 ∧
    (0 : ℚ) < (getAABBForTriangle skewTri).1.x ∧
    isBarycentricCoordInBounds (calculateBarycentricCoordinate skewTri ⟨0, 0⟩) = false :=
  ⟨signedArea_skewTri_ne,
    by simp only [getAABBForTriangle, skewTri]; norm_num,
    not_inBounds_outside_aabb skewTri ⟨0, 0⟩ signedArea_skewTri_ne
      (Or.inl (by simp only [getAABBForTriangle, skewTri]; norm_num))⟩

/-! ## Bounding box -/

/-- C7: for every triangle, the box of `getAABBForTriangle` bounds every vertex
position on every axis: `minpoint ≤ v ≤ maxpoint` in `x`, in `y` and in `z` for
each `v` among `p0`, `p1`, `p2`. -/
theorem aabb_contains_vertices (tri : triangle) :
    ∀ v ∈ [tri.p0, tri.p1, tri.p2],
      ((getAABBForTriangle tri).1.x ≤ v.x ∧ v.x ≤ (getAABBForTriangle tri).2.x) ∧
      ((getAABBForTriangle tri).1.y ≤ v.y ∧ v.y ≤ (getAABBForTriangle tri).2.y) ∧
      ((getAABBForTriangle tri).1.z ≤ v.z ∧ v.z ≤ (getAABBForTriangle tri).2.z) := by
  obtain ⟨x0, x1, x2, y0, y1, y2, z0, z1, z2⟩ := aabb_bounds tri
  intro v hv
  simp only [List.mem_cons, List.mem_singleton, List.not_mem_nil, or_false] at hv
  rcases hv with rfl | rfl | rfl
  · exact ⟨x0, y0, z0⟩
  · exact ⟨x1, y1, z1⟩
  · exact ⟨x2, y2, z2⟩

/-- C7, instance: the second vertex of the skew triangle lies in its box on
every axis. -/
theorem aabb_contains_vertices_witness :
    skewTri.p1 ∈ [skewTri.p0, skewTri.p1, skewTri.p2] ∧
    ((getAABBForTriangle skewTri).1.x ≤ skewTri.p1.x ∧
      skewTri.p1.x ≤ (getAABBForTriangle skewTri).2.x) ∧
    ((getAABBForTriangle skewTri).1.y ≤ skewTri.p1.y ∧
      skewTri.p1.y ≤ (getAABBForTriangle skewTri).2.y) ∧
    ((getAABBForTriangle skewTri).1.z ≤ skewTri.p1.z ∧
      skewTri.p1.z ≤ (getAABBForTriangle skewTri).2.z) :=
  ⟨List.mem_cons_of_mem _ (List.mem_cons_self _ _),
    aabb_contains_vertices skewTri skewTri.p1
      (List.mem_cons_of_mem _ (List.mem_cons_self _ _))⟩

/-- C8: the box of `getAABBForTriangle` is tight: on each axis `x`, `y`, `z`
the component of `minpoint` is that component of one of the three vertex
positions, and so is the component of `maxpoint`; two triangles whose positions
agree in `x`, `y` and `z` get the same box, so `w` is ignored. -/
theorem aabb_tight :
    (∀ tri : triangle,
      ((getAABBForTriangle tri).1.x = tri.p0.x ∨ (getAABBForTriangle tri).1.x = tri.p1.x ∨
        (getAABBForTriangle tri).1.x = tri.p2.x) ∧
      ((getAABBForTriangle tri).1.y = tri.p0.y ∨ (getAABBForTriangle tri).1.y = tri.p1.y ∨
        (getAABBForTriangle tri).1.y = tri.p2.y) ∧
      ((getAABBForTriangle tri).1.z = tri.p0.z ∨ (getAABBForTriangle tri).1.z = tri.p1.z ∨
        (getAABBForTriangle tri).1.z = tri.p2.z) ∧
      ((getAABBForTriangle tri).2.x = tri.p0.x ∨ (getAABBForTriangle tri).2.x = tri.p1.x ∨
        (getAABBForTriangle tri).2.x = tri.p2.x) ∧
      ((getAABBForTriangle tri).2.y = tri.p0.y ∨ (getAABBForTriangle tri).2.y = tri.p1.y ∨
        (getAABBForTriangle tri).2.y = tri.p2.y) ∧
      ((getAABBForTriangle tri).2.z = tri.p0.z ∨ (getAABBForTriangle tri).2.z = tri.p1.z ∨
        (getAABBForTriangle tri).2.z = tri.p2.z)) ∧
    (∀ tri tri2 : triangle,
      (tri2.p0.x = tri.p0.x ∧ tri2.p0.y = tri.p0.y ∧ tri2.p0.z = tri.p0.z) →
      (tri2.p1.x = tri.p1.x ∧ tri2.p1.y = tri.p1.y ∧ tri2.p1.z = tri.p1.z) →
      (tri2.p2.x = tri.p2.x ∧ tri2.p2.y = tri.p2.y ∧ tri2.p2.z = tri.p2.z) →
      getAABBForTriangle tri2 = getAABBForTriangle tri) := by
  refine ⟨fun tri => ⟨min3_mem _ _ _, min3_mem _ _ _, min3_mem _ _ _,
    max3_mem _ _ _, max3_mem _ _ _, max3_mem _ _ _⟩, ?_⟩
  rintro tri tri2 ⟨a0, b0, c0⟩ ⟨a1, b1, c1⟩ ⟨a2, b2, c2⟩
  simp only [getAABBForTriangle, a0, b0, c0, a1, b1, c1, a2, b2, c2]

/-- C8, instance: the box of the skew triangle has corner components taken from
its vertices, and changing every `w` of the skew triangle keeps the box. -/
theorem aabb_tight_witness :
    getAABBForTriangle skewTri = (⟨1, 1, -1⟩, ⟨4, 5, 5⟩) ∧
    getAABBForTriangle
      { skewTri with p0 := ⟨1, 1, 5, 9⟩, p1 := ⟨4, 2, -1, 8⟩, p2 := ⟨2, 5, 3, 7⟩ }
      = getAABBForTriangle skewTri :=
  ⟨by simp only [getAABBForTriangle, skewTri]; norm_num,
    aabb_tight.2 skewTri
      { skewTri with p0 := ⟨1, 1, 5, 9⟩, p1 := ⟨4, 2, -1, 8⟩, p2 := ⟨2, 5, 3, 7⟩ }
      ⟨rfl, rfl, rfl⟩ ⟨rfl, rfl, rfl⟩ ⟨rfl, rfl, rfl⟩⟩

/-! ## Signed area -/

/-- C9: for every triangle the signed area is
`1/2 * ((p2.x-p0.x)*(p1.y-p0.y) - (p1.x-p0.x)*(p2.y-p0.y))`; it depends only on
the `x,y` of the three positions, so two triangles that agree there have the
same area; for `p0=(0,0)`, `p1=(1,0)`, `p2=(0,1)` it is `-1/2`. -/
theorem signedArea_formula :
    (∀ tri : triangle, calculateSignedArea tri
      = (1/2) * ((tri.p2.x - tri.p0.x)*(tri.p1.y - tri.p0.y)
          - (tri.p1.x - tri.p0.x)*(tri.p2.y - tri.p0.y))) ∧
    (∀ tri tri2 : triangle,
      (tri2.p0.x = tri.p0.x ∧ tri2.p0.y = tri.p0.y) →
      (tri2.p1.x = tri.p1.x ∧ tri2.p1.y = tri.p1.y) →
      (tri2.p2.x = tri.p2.x ∧ tri2.p2.y = tri.p2.y) →
      calculateSignedArea tri2 = calculateSignedArea tri) ∧
    calculateSignedArea unitTri = -(1/2) := by
  refine ⟨fun tri => rfl, ?_, signedArea_unitTri⟩
  rintro tri tri2 ⟨a0, b0⟩ ⟨a1, b1⟩ ⟨a2, b2⟩
  simp only [calculateSignedArea, a0, b0, a1, b1, a2, b2]

/-- C9, instance: the spec's triangle with all `z`, `w` and attributes changed
still has signed area `-1/2`. -/
theorem signedArea_formula_witness :
    calculateSignedArea unitTriAltered = calculateSignedArea unitTri ∧
    calculateSignedArea unitTriAltered = -(1/2) :=
  ⟨signedArea_formula.2.1 unitTri unitTriAltered ⟨rfl, rfl⟩ ⟨rfl, rfl⟩ ⟨rfl, rfl⟩,
    by simp only [calculateSignedArea, unitTriAltered]; norm_num⟩

/-- C10, amended: in exact arithmetic, for every triangle the signed area is
zero exactly when the `x,y`
projections of the positions are collinear, that is when `p1-p0` and `p2-p0`
are linearly dependent in the plane; in particular it is zero when two of the
vertices coincide in `x,y`. -/
theorem signedArea_zero_iff_collinear (tri : triangle) :
    (calculateSignedArea tri = 0 ↔
      ∃ s t : ℚ, (s ≠ 0 ∨ t ≠ 0) ∧
        s * (tri.p1.x - tri.p0.x) + t * (tri.p2.x - tri.p0.x) = 0 ∧
        s * (tri.p1.y - tri.p0.y) + t * (tri.p2.y - tri.p0.y) = 0) ∧
    (tri.p0.x = tri.p1.x ∧ tri.p0.y = tri.p1.y → calculateSignedArea tri = 0) ∧
    (tri.p0.x = tri.p2.x ∧ tri.p0.y = tri.p2.y → calculateSignedArea tri = 0) ∧
    (tri.p1.x = tri.p2.x ∧ tri.p1.y = tri.p2.y → calculateSignedArea tri = 0) := by
  have hA := two_mul_signedArea tri
  have hzero : calculateSignedArea tri = 0 ↔
      (tri.p2.x - tri.p0.x)*(tri.p1.y - tri.p0.y)
        - (tri.p1.x - tri.p0.x)*(tri.p2.y - tri.p0.y) = 0 := by
    rw [← hA]; simp
  refine ⟨?_, ?_, ?_, ?_⟩
  · rw [hzero]
    constructor
    · intro h0
      by_cases hx : tri.p2.x - tri.p0.x = 0 ∧ tri.p1.x - tri.p0.x = 0
      · by_cases hy : tri.p2.y - tri.p0.y = 0 ∧ tri.p1.y - tri.p0.y = 0
        · exact ⟨1, 0, Or.inl one_ne_zero, by rw [hx.2]; ring, by rw [hy.2]; ring⟩
        · refine ⟨tri.p2.y - tri.p0.y, -(tri.p1.y - tri.p0.y), ?_, ?_, by ring⟩
          · by_contra hcon
            push_neg at hcon
            exact hy ⟨hcon.1, neg_eq_zero.mp hcon.2⟩
          · rw [hx.1, hx.2]; ring
      · refine ⟨tri.p2.x - tri.p0.x, -(tri.p1.x - tri.p0.x), ?_, by ring, ?_⟩
        · by_contra hcon
          push_neg at hcon
          exact hx ⟨hcon.1, neg_eq_zero.mp hcon.2⟩
        · linear_combination h0
    · rintro ⟨s, t, hst, ex, ey⟩
      exact hzero.mp (signedArea_zero_of_dependent tri s t hst ex ey)
  · rintro ⟨ex, ey⟩
    rw [hzero, ex, ey]; ring
  · rintro ⟨ex, ey⟩
    rw [hzero, ex, ey]; ring
  · rintro ⟨ex, ey⟩
    rw [hzero, ex, ey]; ring

/-- C10, instance: three triangles, each with exactly one pair of positions
coinciding in `x,y`, have signed area zero; the skew triangle is not collinear
and the unit triangle with its third position moved to `(2,0)` is collinear
without any coincidence. -/
theorem signedArea_zero_iff_collinear_witness :
    (coincide01Tri.p0.x = coincide01Tri.p1.x ∧ coincide01Tri.p0.y = coincide01Tri.p1.y) ∧
    calculateSignedArea coincide01Tri = 0 ∧
    (coincide02Tri.p0.x = coincide02Tri.p2.x ∧ coincide02Tri.p0.y = coincide02Tri.p2.y) ∧
    calculateSignedArea coincide02Tri = 0 ∧
    (coincide12Tri.p1.x = coincide12Tri.p2.x ∧ coincide12Tri.p1.y = coincide12Tri.p2.y) ∧
    calculateSignedArea coincide12Tri = 0 ∧
    (¬ ∃ s t : ℚ, (s ≠ 0 ∨ t ≠ 0) ∧
      s * (skewTri.p1.x - skewTri.p0.x) + t * (skewTri.p2.x - skewTri.p0.x) = 0 ∧
      s * (skewTri.p1.y - skewTri.p0.y) + t * (skewTri.p2.y - skewTri.p0.y) = 0) ∧
    calculateSignedArea (mkTri ⟨0, 0, 0, 1⟩ ⟨1, 0, 0, 1⟩ ⟨2, 0, 0, 1⟩) = 0 :=
  ⟨⟨rfl, rfl⟩, (signedArea_zero_iff_collinear coincide01Tri).2.1 ⟨rfl, rfl⟩,
    ⟨rfl, rfl⟩, (signedArea_zero_iff_collinear coincide02Tri).2.2.1 ⟨rfl, rfl⟩,
    ⟨rfl, rfl⟩, (signedArea_zero_iff_collinear coincide12Tri).2.2.2 ⟨rfl, rfl⟩,
    fun hdep => signedArea_skewTri_ne ((signedArea_zero_iff_collinear skewTri).1.2 hdep),
    (signedArea_zero_iff_collinear (mkTri ⟨0, 0, 0, 1⟩ ⟨1, 0, 0, 1⟩ ⟨2, 0, 0, 1⟩)).1.2
      ⟨2, -1, Or.inl (by norm_num),
        by simp only [mkTri]; norm_num, by simp only [mkTri]; norm_num⟩⟩

/-! ## Depth interpolation -/

/-- C11: for every barycentric triple and every triangle, `getZAtCoordinate`
returns `-(alpha*p0.z + beta*p1.z + gamma*p2.z)`; it reads only the `z` of the
positions, so nothing is divided by `w`; for the triple `(1/2,1/4,1/4)` and
depths `-1, -2, -3` it returns `7/4`. -/
theorem getZ_negated_blend :
    (∀ (b : vec3) (tri : triangle), getZAtCoordinate b tri
      = -(b.x * tri.p0.z + b.y * tri.p1.z + b.z * tri.p2.z)) ∧
    (∀ (b : vec3) (tri tri2 : triangle),
      tri2.p0.z = tri.p0.z → tri2.p1.z = tri.p1.z → tri2.p2.z = tri.p2.z →
      getZAtCoordinate b tri2 = getZAtCoordinate b tri) ∧
    getZAtCoordinate ⟨1/2, 1/4, 1/4⟩ depthTri = 7/4 := by
  refine ⟨fun b tri => rfl, ?_, ?_⟩
  · intro b tri tri2 h0 h1 h2
    simp only [getZAtCoordinate, h0, h1, h2]
  · simp only [getZAtCoordinate, depthTri, mkTri]
    norm_num

/-- C11, instance: changing every `w` (and `x,y`) of the depth triangle keeps
the interpolated depth `7/4`. -/
theorem getZ_negated_blend_witness :
    getZAtCoordinate ⟨1/2, 1/4, 1/4⟩ (mkTri ⟨5, 6, -1, 2⟩ ⟨7, 8, -2, 3⟩ ⟨9, 1, -3, 4⟩)
      = getZAtCoordinate ⟨1/2, 1/4, 1/4⟩ depthTri :=
  getZ_negated_blend.2.1 ⟨1/2, 1/4, 1/4⟩ depthTri
    (mkTri ⟨5, 6, -1, 2⟩ ⟨7, 8, -2, 3⟩ ⟨9, 1, -3, 4⟩) rfl rfl rfl

/-! ## Matrix operations -/

/-- C12: for every row-indexed matrix `m` and vector `v`, each component `r` of
`multiplyMV m v` is `m[r].x*v.x + m[r].y*v.y + m[r].z*v.z + m[r].w*v.w`; the
initial value `(1,1,1,0)` of the result does not appear. -/
theorem multiplyMV_is_product (m : cudaMat4) (v : vec4) :
    ∀ r : Fin 4, (multiplyMV m v).get r
      = (m.row r).x * v.x + (m.row r).y * v.y + (m.row r).z * v.z + (m.row r).w * v.w := by
  intro r
  fin_cases r <;> rfl

/-- C13: for every vector `v`, `multiplyMV` with the identity matrix returns
`v` unchanged in all four components. -/
theorem multiplyMV_identity (v : vec4) : multiplyMV identityMat v = v := by
  cases v
  simp [multiplyMV, identityMat]

/-- C14: for every column-accessible matrix `v`, row `r`, column `c` of
`mat4GLMtoCUDA v` is column `c`, row `r` of `v`, for all sixteen pairs. -/
theorem mat4GLMtoCUDA_relayout (v : mat4) :
    ∀ r c : Fin 4, ((mat4GLMtoCUDA v).row r).get c = (v.col c).get r := by
  intro r c
  fin_cases r <;> fin_cases c <;> rfl

/-- C15: `mat4GLMtoCUDA` loses no information: the inverse re-layout (column
`c`, row `r` of the result is row `r`, column `c` of the argument) applied to
`mat4GLMtoCUDA v` gives back `v`, and `mat4GLMtoCUDA` is injective. -/
theorem mat4GLMtoCUDA_roundtrip :
    (∀ (m : cudaMat4) (r c : Fin 4),
      ((inverseRelayout m).col c).get r = (m.row r).get c) ∧
    (∀ v : mat4, inverseRelayout (mat4GLMtoCUDA v) = v) ∧
    Function.Injective mat4GLMtoCUDA := by
  have hrt : ∀ v : mat4, inverseRelayout (mat4GLMtoCUDA v) = v := fun v => rfl
  refine ⟨?_, hrt, ?_⟩
  · intro m r c
    fin_cases r <;> fin_cases c <;> rfl
  · intro a b hab
    rw [← hrt a, ← hrt b, hab]

/-- C15, instance: two sample matrices with the same re-layout are the same
matrix, and the sample matrix survives the round trip. -/
theorem mat4GLMtoCUDA_roundtrip_witness :
    mat4GLMtoCUDA sampleMat = mat4GLMtoCUDA sampleMat ∧
    sampleMat = sampleMat ∧
    inverseRelayout (mat4GLMtoCUDA sampleMat) = sampleMat :=
  ⟨rfl, mat4GLMtoCUDA_roundtrip.2.2 rfl, mat4GLMtoCUDA_roundtrip.2.1 sampleMat⟩

/-! ## Space conversion round trip -/

/-- C16: the commented-out conversion pair round-trips: for every triangle and
every resolution with non-zero components, each position with non-zero `w`
is reproduced exactly by `clipToScreenTransform` followed by
`screenToClipTransform`; when all three `w` are non-zero the whole triangle is
reproduced; neither transform changes a `w`; the position `(2,-1,0,2)` at
resolution `(800,600)` goes to `(800,150,1/2,2)` and back. -/
theorem spaceConversion_roundtrip :
    (∀ (tri : triangle) (res : vec2), res.x ≠ 0 → res.y ≠ 0 →
      (tri.p0.w ≠ 0 →
        (screenToClipTransform (clipToScreenTransform tri res) res).p0 = tri.p0) ∧
      (tri.p1.w ≠ 0 →
        (screenToClipTransform (clipToScreenTransform tri res) res).p1 = tri.p1) ∧
      (tri.p2.w ≠ 0 →
        (screenToClipTransform (clipToScreenTransform tri res) res).p2 = tri.p2) ∧
      (tri.p0.w ≠ 0 → tri.p1.w ≠ 0 → tri.p2.w ≠ 0 →
        screenToClipTransform (clipToScreenTransform tri res) res = tri)) ∧
    (∀ (tri : triangle) (res : vec2),
      (clipToScreenTransform tri res).p0.w = tri.p0.w ∧
      (clipToScreenTransform tri res).p1.w = tri.p1.w ∧
      (clipToScreenTransform tri res).p2.w = tri.p2.w ∧
      (screenToClipTransform tri res).p0.w = tri.p0.w ∧
      (screenToClipTransform tri res).p1.w = tri.p1.w ∧
      (screenToClipTransform tri res).p2.w = tri.p2.w) ∧
    (clipToScreenTransform clipTri ⟨800, 600⟩).p0 = ⟨800, 150, 1/2, 2⟩ ∧
    (screenToClipTransform (clipToScreenTransform clipTri ⟨800, 600⟩) ⟨800, 600⟩).p0
      = ⟨2, -1, 0, 2⟩ := by
  refine ⟨?_, fun tri res => ⟨rfl, rfl, rfl, rfl, rfl, rfl⟩, ?_, ?_⟩
  · intro tri res hx hy
    have e0 : tri.p0.w ≠ 0 →
        (screenToClipTransform (clipToScreenTransform tri res) res).p0 = tri.p0 :=
      fun hw => vertex_roundtrip tri.p0 res hw hx hy
    have e1 : tri.p1.w ≠ 0 →
        (screenToClipTransform (clipToScreenTransform tri res) res).p1 = tri.p1 :=
      fun hw => vertex_roundtrip tri.p1 res hw hx hy
    have e2 : tri.p2.w ≠ 0 →
        (screenToClipTransform (clipToScreenTransform tri res) res).p2 = tri.p2 :=
      fun hw => vertex_roundtrip tri.p2 res hw hx hy
    refine ⟨e0, e1, e2, ?_⟩
    intro h0 h1 h2
    have q0 := vertex_roundtrip tri.p0 res h0 hx hy
    have q1 := vertex_roundtrip tri.p1 res h1 hx hy
    have q2 := vertex_roundtrip tri.p2 res h2 hx hy
    simp only [screenToClipTransform, clipToScreenTransform, mapPositions, q0, q1, q2]
  · simp only [clipToScreenTransform, mapPositions, scaleByResolution, rescaleToUnit,
      perspectiveDivide, clipTri, mkTri, vec4.mk.injEq]
    norm_num
  · simp only [screenToClipTransform, clipToScreenTransform, mapPositions,
      perspectiveMultiply, rescaleToSigned, divideByResolution, scaleByResolution,
      rescaleToUnit, perspectiveDivide, clipTri, mkTri, vec4.mk.injEq]
    norm_num

/-- C16, instance: the triangle with first position `(2,-1,0,2)` round-trips as
a whole at resolution `(800,600)`. -/
theorem spaceConversion_roundtrip_witness :
    (800 : ℚ) ≠ 0 ∧ (600 : ℚ) ≠ 0 ∧
    clipTri.p0.w ≠ 0 ∧ clipTri.p1.w ≠ 0 ∧ clipTri.p2.w ≠ 0 ∧
    screenToClipTransform (clipToScreenTransform clipTri ⟨800, 600⟩) ⟨800, 600⟩
      = clipTri :=
  ⟨by norm_num, by norm_num,
    by simp only [clipTri, mkTri]; norm_num,
    by simp only [clipTri, mkTri]; norm_num,
    by simp only [clipTri, mkTri]; norm_num,
    (spaceConversion_roundtrip.1 clipTri ⟨800, 600⟩
      (by norm_num) (by norm_num)).2.2.2
      (by simp only [clipTri, mkTri]; norm_num)
      (by simp only [clipTri, mkTri]; norm_num)
      (by simp only [clipTri, mkTri]; norm_num)⟩

/-! ## Winding -/

/-- C17, amended: in exact arithmetic, for every triangle, exchanging two of
its vertex positions negates
the signed area (each of the three exchanges), and rotating the positions
cyclically, to `(p1,p2,p0)` or to `(p2,p0,p1)`, leaves it unchanged. -/
theorem signedArea_winding (tri : triangle) :
    calculateSignedArea { tri with p1 := tri.p2, p2 := tri.p1 }
      = -calculateSignedArea tri ∧
    calculateSignedArea { tri with p0 := tri.p1, p1 := tri.p0 }
      = -calculateSignedArea tri ∧
    calculateSignedArea { tri with p0 := tri.p2, p2 := tri.p0 }
      = -calculateSignedArea tri ∧
    calculateSignedArea { tri with p0 := tri.p1, p1 := tri.p2, p2 := tri.p0 }
      = calculateSignedArea tri ∧
    calculateSignedArea { tri with p0 := tri.p2, p1 := tri.p0, p2 := tri.p1 }
      = calculateSignedArea tri := by
  simp only [calculateSignedArea]
  refine ⟨?_, ?_, ?_, ?_, ?_⟩ <;> ring

/-! ## Edges -/

/-- C18, amended: in exact arithmetic, for a triangle of non-zero signed area,
a point on the closed segment
between two of its vertices passes the bounds test, and the weight of the
opposite vertex is exactly zero (a segment and its reverse have the same
points, so the three segments below are all the edges); hence a point on an
edge of each of two such triangles is accepted by both. -/
theorem edges_inclusive (tri : triangle) (q : vec2)
    (h : calculateSignedArea tri ≠ 0) :
    (onSegment (xy tri.p0) (xy tri.p1) q ∨ onSegment (xy tri.p1) (xy tri.p0) q →
      isBarycentricCoordInBounds (calculateBarycentricCoordinate tri q) = true ∧
      (calculateBarycentricCoordinate tri q).z = 0) ∧
    (onSegment (xy tri.p1) (xy tri.p2) q ∨ onSegment (xy tri.p2) (xy tri.p1) q →
      isBarycentricCoordInBounds (calculateBarycentricCoordinate tri q) = true ∧
      (calculateBarycentricCoordinate tri q).x = 0) ∧
    (onSegment (xy tri.p2) (xy tri.p0) q ∨ onSegment (xy tri.p0) (xy tri.p2) q →
      isBarycentricCoordInBounds (calculateBarycentricCoordinate tri q) = true ∧
      (calculateBarycentricCoordinate tri q).y = 0) ∧
    (∀ tri2 : triangle, calculateSignedArea tri2 ≠ 0 →
      (onSegment (xy tri.p0) (xy tri.p1) q ∨ onSegment (xy tri.p1) (xy tri.p2) q ∨
        onSegment (xy tri.p2) (xy tri.p0) q) →
      (onSegment (xy tri2.p0) (xy tri2.p1) q ∨ onSegment (xy tri2.p1) (xy tri2.p2) q ∨
        onSegment (xy tri2.p2) (xy tri2.p0) q) →
      isBarycentricCoordInBounds (calculateBarycentricCoordinate tri q) = true ∧
      isBarycentricCoordInBounds (calculateBarycentricCoordinate tri2 q) = true) := by
  have key : ∀ t : triangle, calculateSignedArea t ≠ 0 →
      (onSegment (xy t.p0) (xy t.p1) q ∨ onSegment (xy t.p1) (xy t.p2) q ∨
        onSegment (xy t.p2) (xy t.p0) q) →
      isBarycentricCoordInBounds (calculateBarycentricCoordinate t q) = true := by
    intro t ht hq
    rcases hq with hq | hq | hq
    · exact (edge01 t q ht hq).1
    · exact (edge12 t q ht hq).1
    · exact (edge20 t q ht hq).1
  refine ⟨?_, ?_, ?_, ?_⟩
  · rintro (hq | hq)
    · exact edge01 tri q h hq
    · exact edge01 tri q h (onSegment_symm _ _ _ hq)
  · rintro (hq | hq)
    · exact edge12 tri q h hq
    · exact edge12 tri q h (onSegment_symm _ _ _ hq)
  · rintro (hq | hq)
    · exact edge20 tri q h hq
    · exact edge20 tri q h (onSegment_symm _ _ _ hq)
  · intro tri2 h2 hq hq2
    exact ⟨key tri h hq, key tri2 h2 hq2⟩

/-- C18, instance: the midpoint of the edge shared by the unit triangle and its
mirror image is accepted by both, with third weight zero in the unit triangle. -/
theorem edges_inclusive_witness :
    calculateSignedArea unitTri ≠ 0 ∧ calculateSignedArea mirrorTri ≠ 0 ∧
    onSegment (xy unitTri.p0) (xy unitTri.p1) ⟨1/2, 0⟩ ∧
    onSegment (xy mirrorTri.p0) (xy mirrorTri.p1) ⟨1/2, 0⟩ ∧
    (isBarycentricCoordInBounds (calculateBarycentricCoordinate unitTri ⟨1/2, 0⟩) = true ∧
      (calculateBarycentricCoordinate unitTri ⟨1/2, 0⟩).z = 0) ∧
    (isBarycentricCoordInBounds (calculateBarycentricCoordinate unitTri ⟨1/2, 0⟩) = true ∧
      isBarycentricCoordInBounds (calculateBarycentricCoordinate mirrorTri ⟨1/2, 0⟩)
        = true) :=
  ⟨signedArea_unitTri_ne, signedArea_mirrorTri_ne, mid_on_unitTri, mid_on_mirrorTri,
    (edges_inclusive unitTri ⟨1/2, 0⟩ signedArea_unitTri_ne).1 (Or.inl mid_on_unitTri),
    (edges_inclusive unitTri ⟨1/2, 0⟩ signedArea_unitTri_ne).2.2.2 mirrorTri
      signedArea_mirrorTri_ne (Or.inl mid_on_unitTri) (Or.inl mid_on_mirrorTri)⟩

/-! ## Convention of the product -/

/-- C19: for every column-accessible matrix `M` (with `M.col c` its column `c`)
and every vector `v`, component `r` of `multiplyMV (mat4GLMtoCUDA M) v` is the
sum over `c` in `0..3` of `M[c][r] * v[c]`, the column-major product `M*v`. -/
theorem multiplyMV_relayout_column_major (M : mat4) (v : vec4) :
    ∀ r : Fin 4, (multiplyMV (mat4GLMtoCUDA M) v).get r
      = ∑ c : Fin 4, (M.col c).get r * v.get c := by
  intro r
  rw [Fin.sum_univ_four]
  fin_cases r <;> rfl

/-! ## Degenerate triangles -/

/-- C20: with the division guarded, `calculateBarycentricCoordinateValue` has a
result exactly when the signed area of the triangle is non-zero, and so has
`calculateBarycentricCoordinate`; when the signed area is non-zero the guarded
functions take the quotient branch and return the values of the unguarded
ones. -/
theorem barycentric_defined_iff :
    (∀ (a b c : vec2) (tri : triangle),
      (calculateBarycentricCoordinateValue? a b c tri).isSome = true
        ↔ calculateSignedArea tri ≠ 0) ∧
    (∀ (tri : triangle) (q : vec2),
      (calculateBarycentricCoordinate? tri q).isSome = true
        ↔ calculateSignedArea tri ≠ 0) ∧
    (∀ (a b c : vec2) (tri : triangle), calculateSignedArea tri ≠ 0 →
      calculateBarycentricCoordinateValue? a b c tri
        = some (calculateBarycentricCoordinateValue a b c tri)) ∧
    (∀ (tri : triangle) (q : vec2), calculateSignedArea tri ≠ 0 →
      calculateBarycentricCoordinate? tri q
        = some (calculateBarycentricCoordinate tri q)) := by
  have hval : ∀ (a b c : vec2) (tri : triangle), calculateSignedArea tri ≠ 0 →
      calculateBarycentricCoordinateValue? a b c tri
        = some (calculateBarycentricCoordinateValue a b c tri) :=
    fun a b c tri h => div?_of_ne _ _ h
  have hcoord : ∀ (tri : triangle) (q : vec2), calculateSignedArea tri ≠ 0 →
      calculateBarycentricCoordinate? tri q
        = some (calculateBarycentricCoordinate tri q) := by
    intro tri q h
    simp only [calculateBarycentricCoordinate?, hval _ _ _ tri h, Option.some_bind,
      calculateBarycentricCoordinate]
  refine ⟨fun a b c tri => div?_isSome _ _, ?_, hval, hcoord⟩
  intro tri q
  constructor
  · intro hs h0
    have hnone : calculateBarycentricCoordinate? tri q = none := by
      simp only [calculateBarycentricCoordinate?, calculateBarycentricCoordinateValue?,
        div?, h0, if_true, Option.none_bind]
    rw [hnone] at hs
    simp at hs
  · intro h
    rw [hcoord tri q h]
    rfl

/-- C20, instance: on the unit triangle the guarded functions return the values
of the unguarded ones, and on a triangle of coincident vertices, whose signed
area is zero, they have no result. -/
theorem barycentric_defined_iff_witness :
    calculateSignedArea unitTri ≠ 0 ∧
    calculateBarycentricCoordinateValue? ⟨0, 0⟩ ⟨1/4, 1/4⟩ ⟨0, 1⟩ unitTri = some (1/4) ∧
    calculateBarycentricCoordinate? unitTri ⟨1/4, 1/4⟩ = some ⟨1/2, 1/4, 1/4⟩ ∧
    ¬ calculateSignedArea pointTri ≠ 0 ∧
    ¬ (calculateBarycentricCoordinate? pointTri ⟨2, 3⟩).isSome = true :=
  ⟨signedArea_unitTri_ne,
    (barycentric_defined_iff.2.2.1 ⟨0, 0⟩ ⟨1/4, 1/4⟩ ⟨0, 1⟩ unitTri
      signedArea_unitTri_ne).trans
      (by simp only [calculateBarycentricCoordinateValue, calculateSignedArea, baryTri,
            unitTri, mkTri]; norm_num),
    (barycentric_defined_iff.2.2.2 unitTri ⟨1/4, 1/4⟩ signedArea_unitTri_ne).trans
      (by simp only [calculateBarycentricCoordinate, calculateBarycentricCoordinateValue,
            calculateSignedArea, baryTri, unitTri, mkTri]; norm_num),
    by simp only [calculateSignedArea, pointTri, mkTri]; norm_num,
    fun hs => ((barycentric_defined_iff.2.1 pointTri ⟨2, 3⟩).1 hs)
      (by simp only [calculateSignedArea, pointTri, mkTri]; norm_num)⟩

/-! ## Evaluation in binary32

The source evaluated on `float` inputs, with the rounding of each operation. -/

/-- C3, counterexample: in binary32 the weights of `(100, 0.3f)` against the
unit triangle are `(-6507725/65536, 100, 0.3f)`, which sum to
`16777165/16777216`, not to one. -/
theorem barycentric_sum_one_fails_binary32 :
    calculateSignedAreaF32 unitTri = some (-(1/2)) ∧
    toFloat (3/10) = some f0_3 ∧
    calculateBarycentricCoordinateF32 unitTri ⟨100, f0_3⟩
      = some ⟨-6507725/65536, 100, f0_3⟩ ∧
    (-6507725/65536 : ℚ) + 100 + f0_3 = 16777165/16777216 ∧
    (-6507725/65536 : ℚ) + 100 + f0_3 ≠ 1 := by
  decide!

/-- C4, counterexample: in binary32 the point `(2,1)`, which lies in the closed
triangle `(0,0)`, `(3,0)`, `(0,3)` with weights `(0,2/3,1/3)`, gets
`alpha = -2^-25` and fails the bounds test; and the point `(1, 1-2^-24)`, which
lies outside the closed triangle `(1,2)`, `(1,1)`, `(2,1)`, gets `(0,1,0)` and
passes it. -/
theorem inBounds_iff_in_closed_triangle_fails_binary32 :
    (calculateSignedAreaF32 edgeTri = some (-(9/2)) ∧
      (∃ a b c : ℚ, 0 ≤ a ∧ 0 ≤ b ∧ 0 ≤ c ∧ a + b + c = 1 ∧
        (2 : ℚ) = a * edgeTri.p0.x + b * edgeTri.p1.x + c * edgeTri.p2.x ∧
        (1 : ℚ) = a * edgeTri.p0.y + b * edgeTri.p1.y + c * edgeTri.p2.y) ∧
      calculateBarycentricCoordinateF32 edgeTri ⟨2, 1⟩
        = some ⟨-1/33554432, 11184811/16777216, 11184811/33554432⟩ ∧
      isBarycentricCoordInBounds ⟨-1/33554432, 11184811/16777216, 11184811/33554432⟩
        = false) ∧
    (calculateSignedAreaF32 cornerTri = some (-(1/2)) ∧
      (¬ ∃ a b c : ℚ, 0 ≤ a ∧ 0 ≤ b ∧ 0 ≤ c ∧ a + b + c = 1 ∧
        (1 : ℚ) = a * cornerTri.p0.x + b * cornerTri.p1.x + c * cornerTri.p2.x ∧
        (16777215/16777216 : ℚ)
          = a * cornerTri.p0.y + b * cornerTri.p1.y + c * cornerTri.p2.y) ∧
      calculateBarycentricCoordinateF32 cornerTri ⟨1, 16777215/16777216⟩
        = some ⟨0, 1, 0⟩ ∧
      isBarycentricCoordInBounds ⟨0, 1, 0⟩ = true) := by
  refine ⟨⟨by decide!, ⟨0, 2/3, 1/3, by norm_num, by norm_num, by norm_num, by norm_num,
    by simp only [edgeTri, mkTri]; norm_num, by simp only [edgeTri, mkTri]; norm_num⟩,
    by decide!, by decide!⟩, ⟨by decide!, ?_, by decide!, by decide!⟩⟩
  rintro ⟨a, b, c, ha, hb, hc, hsum, -, hy⟩
  have hbetween := convex_between a b c cornerTri.p0.y cornerTri.p1.y cornerTri.p2.y 1 2
    ha hb hc hsum
    (by simp only [cornerTri, mkTri]; norm_num)
    (by simp only [cornerTri, mkTri]; norm_num)
    (by simp only [cornerTri, mkTri]; norm_num)
  rw [← hy] at hbetween
  norm_num at hbetween

/-- C5, counterexample: the centroid of `(0,0)`, `(6139,6163)`, `(18416,18488)`
is the `float` point `(8185,8217)`; the signed area is `-12`, and in binary32
the centroid gets `alpha = -2^-25` and fails the bounds test. -/
theorem inBounds_at_centroid_fails_binary32 :
    calculateSignedAreaF32 thinTri = some (-12) ∧
    calculateSignedArea thinTri = -12 ∧
    (thinTri.p0.x + thinTri.p1.x + thinTri.p2.x) / 3 = 8185 ∧
    (thinTri.p0.y + thinTri.p1.y + thinTri.p2.y) / 3 = 8217 ∧
    calculateBarycentricCoordinateF32 thinTri ⟨8185, 8217⟩
      = some ⟨-1/33554432, 11184811/16777216, 11184811/33554432⟩ ∧
    isBarycentricCoordInBounds ⟨-1/33554432, 11184811/16777216, 11184811/33554432⟩
      = false := by
  decide!

/-- C6, counterexample: for the triangle `(1,2)`, `(1,1)`, `(2,1)` the point
`(1, 1-2^-24)` lies below the box, whose least `y` is `1`, yet in binary32 it
gets the weights `(0,1,0)` and passes the bounds test. -/
theorem inBounds_outside_aabb_binary32 :
    calculateSignedAreaF32 cornerTri = some (-(1/2)) ∧
    toFloat (16777215/16777216) = some (16777215/16777216) ∧
    (16777215/16777216 : ℚ) < (getAABBForTriangle cornerTri).1.y ∧
    calculateBarycentricCoordinateF32 cornerTri ⟨1, 16777215/16777216⟩
      = some ⟨0, 1, 0⟩ ∧
    isBarycentricCoordInBounds ⟨0, 1, 0⟩ = true := by
  decide!

/-- C10, counterexample: the positions `(0.1f,0.3f)`, twice that and eight times
that are collinear, yet in binary32 their signed area is `-2^-27`; the
positions `(0.5,0.7f)`, `(0.9f,0.1f)`, `(0.7f,0.4f)` are not collinear, yet in
binary32 their signed area is `0`. -/
theorem signedArea_zero_iff_collinear_fails_binary32 :
    ((∃ s t : ℚ, (s ≠ 0 ∨ t ≠ 0) ∧
        s * (lineTri.p1.x - lineTri.p0.x) + t * (lineTri.p2.x - lineTri.p0.x) = 0 ∧
        s * (lineTri.p1.y - lineTri.p0.y) + t * (lineTri.p2.y - lineTri.p0.y) = 0) ∧
      calculateSignedAreaF32 lineTri = some (-1/134217728)) ∧
    ((¬ ∃ s t : ℚ, (s ≠ 0 ∨ t ≠ 0) ∧
        s * (sliverTri.p1.x - sliverTri.p0.x) + t * (sliverTri.p2.x - sliverTri.p0.x) = 0 ∧
        s * (sliverTri.p1.y - sliverTri.p0.y) + t * (sliverTri.p2.y - sliverTri.p0.y) = 0) ∧
      calculateSignedAreaF32 sliverTri = some 0) := by
  refine ⟨⟨⟨7, -1, Or.inl (by norm_num), by decide!, by decide!⟩, by decide!⟩,
    ⟨?_, by decide!⟩⟩
  rintro ⟨s, t, hst, ex, ey⟩
  have h0 := signedArea_zero_of_dependent sliverTri s t hst ex ey
  have hne : calculateSignedArea sliverTri ≠ 0 := by decide!
  exact hne h0

/-- C17, counterexample: in binary32 the signed area of `(0.2f,0)`, `(0,0.4f)`,
`(0.3f,0.2f)` is `10737419/2^28`, the rotation `(p1,p2,p0)` gives
`5368709/2^27`, which is another value, and exchanging `p0` and `p1` gives
`-5368709/2^27`, which is not the negation. -/
theorem signedArea_winding_fails_binary32 :
    calculateSignedAreaF32 windTri = some (10737419/268435456) ∧
    calculateSignedAreaF32
        { windTri with p0 := windTri.p1, p1 := windTri.p2, p2 := windTri.p0 }
      = some (5368709/134217728) ∧
    calculateSignedAreaF32 { windTri with p0 := windTri.p1, p1 := windTri.p0 }
      = some (-5368709/134217728) ∧
    (5368709/134217728 : ℚ) ≠ 10737419/268435456 ∧
    (-5368709/134217728 : ℚ) ≠ -(10737419/268435456) := by
  decide!

/-- C18, counterexample: the point `(1,2)` lies on the edge from `p1` to `p2` of
the triangle `(0,0)`, `(3,0)`, `(0,3)`, yet in binary32 the weight of the
opposite vertex `p0` is `-2^-25`, not zero, and the bounds test fails. -/
theorem edges_inclusive_fails_binary32 :
    calculateSignedAreaF32 edgeTri = some (-(9/2)) ∧
    onSegment (xy edgeTri.p1) (xy edgeTri.p2) ⟨1, 2⟩ ∧
    calculateBarycentricCoordinateF32 edgeTri ⟨1, 2⟩
      = some ⟨-1/33554432, 11184811/33554432, 11184811/16777216⟩ ∧
    (-1/33554432 : ℚ) ≠ 0 ∧
    isBarycentricCoordInBounds ⟨-1/33554432, 11184811/33554432, 11184811/16777216⟩
      = false := by
  refine ⟨by decide!, ⟨2/3, by norm_num, by norm_num,
    by simp only [xy, edgeTri, mkTri]; norm_num,
    by simp only [xy, edgeTri, mkTri]; norm_num⟩, by decide!, by decide!, by decide!⟩

end RasterMaster
